import Mathlib

/-!
# ai_wordlister: a verification development

A shallow embedding of `aiwordlister.go` and theorems about it.

* Go strings are Lean `String`s (sequences of code points); `[]string` is `List String`.
* Go `int` is `Int` (64-bit platform, no value here comes near the bounds);
  the `uint32` task counter is a `Nat` reduced modulo `2 ^ 32` at every increment.
* A Go `error` is the `String` of its message.
* A loop that need not terminate is run with fuel; a runtime panic is a result of its own.
* The goroutines of `main` are a transition system: every shared access of the program goes
  through an atomic, a channel or the mutex, so its executions are the interleavings of the
  steps `Event` lists.
-/

set_option autoImplicit false

/-! ## Results of code that can panic or loop -/

/-- Result of running a piece of code with fuel: a value, a runtime panic, or fuel exhausted. -/
inductive Run (α : Type) where
  | done (a : α)
  | panicked (msg : String)
  | outOfFuel
deriving Repr, DecidableEq

/-! ## `batch` (lines 156-163) -/

/-- The loop of `batch`, lines 158-161. `fuel` bounds the number of iterations. The slice
expressions `slice[size:]` and `slice[0:size:size]` panic for a negative `size`; inside the loop
`size < len(slice)`, so they are in range otherwise. -/
def batchLoop (size : Int) : Nat → List String → List (List String) → Run (List (List String))
  | fuel, slice, batches =>
    if size < (slice.length : Int) then
      match fuel with
      | 0 => .outOfFuel
      | fuel + 1 =>
        if size < 0 then .panicked "slice bounds out of range"
        else batchLoop size fuel (slice.drop size.toNat) (batches ++ [slice.take size.toNat])
    else .done (batches ++ [slice])

/-- The function `batch`: `batches` starts out nil. -/
def batch (fuel : Nat) (slice : List String) (size : Int) : Run (List (List String)) :=
  batchLoop size fuel slice []

/-! ## `filterEmpty` (lines 146-154) -/

/-- Go's `unicode.IsSpace`: the code points with the Unicode White_Space property. -/
def isSpace (r : Char) : Bool :=
  let c := r.toNat
  (0x09 ≤ c && c ≤ 0x0D) || c == 0x20 || c == 0x85 || c == 0xA0 || c == 0x1680 ||
    (0x2000 ≤ c && c ≤ 0x200A) || c == 0x2028 || c == 0x2029 || c == 0x202F ||
    c == 0x205F || c == 0x3000

/-- Go's `strings.TrimSpace`: the string without its leading and trailing white space. -/
def TrimSpace (s : String) : String :=
  ⟨List.rdropWhile isSpace (s.data.dropWhile isSpace)⟩

/-- The function `filterEmpty`: the loop appends the trimmed form of every element whose trimmed
form is not the empty string. -/
def filterEmpty (input : List String) : List String :=
  input.foldl (fun out v => let s := TrimSpace v; if s ≠ "" then out ++ [s] else out) []

/-! ## `fmt.Sprintf` and the prompt (lines 221-231, 266-267) -/

/-- The text `fmt.Sprintf` appends for operands no verb consumed: `%!(EXTRA int=5, int=6)`. -/
def sprintfExtra (args : List Int) : List Char :=
  if args.isEmpty then []
  else ("%!(EXTRA " ++ ", ".intercalate (args.map fun a => "int=" ++ toString a) ++ ")").data

/-- Go's `fmt.Sprintf` on `int` operands, for formats whose verbs are `%%` and `%d` only:
literal text is copied, `%%` writes a percent sign, `%d` writes the next operand in decimal
(`%!d(MISSING)` when none is left), a lone `%` at the end writes `%!(NOVERB)`, and operands left
over are reported at the end. A format with any other verb or flag is outside the model
(`none`). -/
def sprintfAux : List Char → List Int → Option (List Char)
  | [], args => some (sprintfExtra args)
  | c :: rest, args =>
    if c = '%' then
      match rest with
      | [] => some ("%!(NOVERB)".data ++ sprintfExtra args)
      | v :: rest2 =>
        if v = '%' then (sprintfAux rest2 args).map (fun o => '%' :: o)
        else if v = 'd' then
          match args with
          | [] => (sprintfAux rest2 []).map (fun o => "%!d(MISSING)".data ++ o)
          | a :: args2 => (sprintfAux rest2 args2).map (fun o => (toString a).data ++ o)
        else none
    else (sprintfAux rest args).map (fun o => c :: o)

/-- The function `fmt.Sprintf` on the modelled fragment. -/
def Sprintf (format : String) (args : List Int) : Option String :=
  (sprintfAux format.data args).map String.mk

/-- The format string of line 225. -/
def domainFormat : String :=
  "There are %%d subdomains separated by a < character. Based on the sample subdomains, generate 150 new possible subdomains. Only return the subdomains. Do not number them."

/-- The format string of line 227. -/
def directoryFormat : String :=
  "There are %%d URLs separated by a < character. Based on the sample URLs and folders, generate 150 new possible directory paths. Only return the directory paths. Do not number them or place any formatting."

/-- The string of line 229. -/
def defaultPrompt : String := "Generate related wordlist entries:"

/-- The choice of `prompt`, lines 221-231: the `-p` flag when given, otherwise the template of
the mode (`-s` before `-d`), where the two mode templates go through `fmt.Sprintf` without
operands. -/
def selectPrompt (promptFlag : String) (domainMode directoryMode : Bool) : Option String :=
  if promptFlag = "" then
    if domainMode then Sprintf domainFormat []
    else if directoryMode then Sprintf directoryFormat []
    else some defaultPrompt
  else some promptFlag

/-- Lines 266-267 once `fmt.Sprintf(prompt, len(batch))` has produced `formatted`:
`formatted + " " + strings.Join(batch, "<")`. -/
def joinPrompt (formatted : String) (batch : List String) : String :=
  formatted ++ " " ++ "<".intercalate batch

/-- The value of `fullPrompt`, lines 266-267. -/
def fullPrompt (prompt : String) (batch : List String) : Option String :=
  (Sprintf prompt [(batch.length : Int)]).map (fun formatted => joinPrompt formatted batch)

/-! ## `strings.Split` -/

/-- The pieces of a list of code points between the occurrences of `sep`; `cur` holds, in
reverse, the piece being read. -/
def splitAux (sep : Char) : List Char → List Char → List String
  | [], cur => [String.mk cur.reverse]
  | c :: cs, cur =>
    if c = sep then String.mk cur.reverse :: splitAux sep cs []
    else splitAux sep cs (c :: cur)

/-- Go's `strings.Split(s, sep)` for a separator of one character: the substrings of `s`
between the separators, one more than there are separators. -/
def Split (s : String) (sep : Char) : List String :=
  splitAux sep s.data []

/-! ## The backend adapters (lines 20-144) -/

/-- The struct `Config`: one credential per backend. -/
structure Config where
  GeminiAPIKey : String
  OpenRouterAPIKey : String
  GroqAPIKey : String
deriving Repr, DecidableEq

/-- An HTTP request as an adapter builds it. The JSON body `json.Marshal(payload)` is kept as
its two varying parts, the model name (absent for Gemini) and the prompt text. -/
structure Request where
  method : String
  url : String
  headers : List (String × String)
  model : Option String
  text : String
deriving Repr, DecidableEq

/-- The fields of `http.Response` the adapters read. -/
structure Response where
  StatusCode : Nat
  Status : String
  Body : String
deriving Repr, DecidableEq

/-- What an adapter call meets outside the program: the transport (`client.Post`, `client.Do`)
and the JSON decoding of a response body into the adapter's `parsed` value. For Gemini the
decoded value is, per candidate, the texts of its parts; for the two chat backends it is, per
choice, the content of its message. -/
structure Client where
  send : Request → Except String Response
  decodeCandidates : String → Except String (List (List String))
  decodeChoices : String → Except String (List String)

/-- The type `apiFunc`. Besides the Go results (lines or an error) an adapter returns the
requests it handed to the transport. -/
abbrev apiFunc := String → Config → Client → Except String (List String) × List Request

/-- The function `geminiRequest`, lines 28-64. -/
def geminiRequest : apiFunc := fun text cfg client =>
  if cfg.GeminiAPIKey = "" then (.error "missing Gemini API key", [])
  else
    let url := "https://generativelanguage.googleapis.com/v1beta/models/gemini-1.5-flash:generateContent?key=" ++ cfg.GeminiAPIKey
    let req : Request :=
      ⟨"POST", url, [("Content-Type", "application/json")], none, text⟩
    match client.send req with
    | .error err => (.error err, [req])
    | .ok resp =>
      if resp.StatusCode ≠ 200 then (.error ("gemini error: " ++ resp.Status), [req])
      else
        match client.decodeCandidates resp.Body with
        | .error err => (.error err, [req])
        | .ok candidates =>
          match candidates with
          | [] => (.error "unexpected gemini response", [req])
          | [] :: _ => (.error "unexpected gemini response", [req])
          | (part :: _) :: _ => (.ok (filterEmpty (Split part '\n')), [req])

/-- The function `deepseekRequest`, lines 66-104. -/
def deepseekRequest : apiFunc := fun text cfg client =>
  if cfg.OpenRouterAPIKey = "" then (.error "missing OpenRouter API key", [])
  else
    let url := "https://openrouter.ai/api/v1/chat/completions"
    let req : Request :=
      ⟨"POST", url,
        [("Authorization", "Bearer " ++ cfg.OpenRouterAPIKey),
          ("Content-Type", "application/json")],
        some "deepseek/deepseek-r1:free", text⟩
    match client.send req with
    | .error err => (.error err, [req])
    | .ok resp =>
      if resp.StatusCode ≠ 200 then (.error ("deepseek error: " ++ resp.Status), [req])
      else
        match client.decodeChoices resp.Body with
        | .error err => (.error err, [req])
        | .ok choices =>
          match choices with
          | [] => (.error "unexpected deepseek response", [req])
          | content :: _ => (.ok (filterEmpty (Split content '\n')), [req])

/-- The function `groqRequest`, lines 106-144. -/
def groqRequest : apiFunc := fun text cfg client =>
  if cfg.GroqAPIKey = "" then (.error "missing Groq API key", [])
  else
    let url := "https://api.groq.com/openai/v1/chat/completions"
    let req : Request :=
      ⟨"POST", url,
        [("Authorization", "Bearer " ++ cfg.GroqAPIKey), ("Content-Type", "application/json")],
        some "llama-3.3-70b-versatile", text⟩
    match client.send req with
    | .error err => (.error err, [req])
    | .ok resp =>
      if resp.StatusCode ≠ 200 then (.error ("groq error: " ++ resp.Status), [req])
      else
        match client.decodeChoices resp.Body with
        | .error err => (.error err, [req])
        | .ok choices =>
          match choices with
          | [] => (.error "unexpected groq response", [req])
          | content :: _ => (.ok (filterEmpty (Split content '\n')), [req])

/-- The slice `apis` of line 251. -/
def apis : List apiFunc := [geminiRequest, deepseekRequest, groqRequest]

/-! ## The dispatch loop of `main` (lines 251-300) -/

/-- The terminal outcome of a task: the case of the `select` of lines 283-297 that ran. -/
inductive Outcome where
  | success (lines : List String)
  | error (err : String)
  | timedOut
deriving Repr, DecidableEq

/-- The inner goroutine of a task (lines 274-281): not yet started, inside the call of `api`,
or done, its result sent on `respCh` or `errCh` (both buffered, the send never blocks). -/
inductive Call where
  | notStarted
  | running
  | delivered (res : Except String (List String))

/-- One goroutine `go func(batch []string)` of line 261 with its local variables. -/
structure TaskState where
  batch : List String
  idx : Option Nat
  api : Nat
  fullPrompt : String
  call : Call
  outcome : Option Outcome
  released : Bool

/-- The task as the `go` statement of line 261 creates it. -/
def TaskState.new (b : List String) : TaskState :=
  ⟨b, none, 0, "", .notStarted, none, false⟩

/-- What the loop reads and never writes: the decoded config, `prompt`, the `-t` flag, and
`fmt.Sprintf` of the standard library as it acts on `prompt` (`none`: outside the model). -/
structure Cfg where
  cfg : Config
  prompt : String
  concurrency : Int
  sprintf : String → List Int → Option String

/-- The shared state of the loop. `pending` are the batches the `range` has yet to reach, `sem`
the number of tokens in the channel `sem`, `counter` the `uint32` of line 252, `outFile` the
lines written to the output file (`none` when `outFile` is nil), `requests` the requests handed
to the transport, `crashed` the message of a panic raised in some goroutine. -/
structure State where
  pending : List (List String)
  sem : Nat
  counter : Nat
  tasks : List TaskState
  outFile : Option (List String)
  stdout : List String
  requests : List Request
  crashed : Option String

/-- The state when the loop of line 258 is entered. -/
def initState (batches : List (List String)) (output : Bool) : State :=
  ⟨batches, 0, 0, [], if output then some [] else none, [], [], none⟩

/-- The steps of the loop and its goroutines.
* `spawn`: lines 259-261 for the next batch: `wg.Add(1)`, send on `sem`, `go`.
* `assign i`: task `i` runs lines 264-274: takes `idx` from the counter, picks `api`, builds
  `fullPrompt`, starts the inner goroutine.
* `apiReturn i client`: the call of `api` in the inner goroutine of task `i` returns, having met
  `client`, and its result is sent on `errCh` or `respCh` (lines 275-280).
* `selectTimeout i`, `selectErr i`, `selectResp i`: the `select` of task `i` takes the case
  `ctx.Done()`, `errCh`, `respCh` (lines 283-297).
* `release i`: the deferred `<-sem` and `wg.Done()` of task `i` (lines 262-263). -/
inductive Event where
  | spawn
  | assign (i : Nat)
  | apiReturn (i : Nat) (client : Client)
  | selectTimeout (i : Nat)
  | selectErr (i : Nat)
  | selectResp (i : Nat)
  | release (i : Nat)

/-- One step of the program; `none` when the step cannot be taken in `s` (a blocked channel
operation, a goroutine that is elsewhere in its code, a format outside the `Sprintf` model).
The timeout case evaluates `batch[0]` and panics on an empty batch; the panic is recorded in
`crashed` and does not disable the steps of the other goroutines, which keep running until the
runtime ends the process. -/
def step (c : Cfg) (s : State) : Event → Option State
  | .spawn =>
    match s.pending with
    | [] => none
    | b :: rest =>
      if (s.sem : Int) < c.concurrency then
        some { s with pending := rest, sem := s.sem + 1, tasks := s.tasks ++ [TaskState.new b] }
      else none
  | .assign i =>
    match s.tasks[i]? with
    | none => none
    | some t =>
      if t.idx.isSome then none
      else
        match c.sprintf c.prompt [(t.batch.length : Int)] with
        | none => none
        | some formatted =>
          let idx := s.counter
          let t2 := { t with
            idx := some idx
            api := idx % apis.length
            fullPrompt := joinPrompt formatted t.batch
            call := .running }
          some { s with counter := (s.counter + 1) % 2 ^ 32, tasks := s.tasks.set i t2 }
  | .apiReturn i client =>
    match s.tasks[i]? with
    | none => none
    | some t =>
      match t.call, apis[t.api]? with
      | .running, some api =>
        let r := api t.fullPrompt c.cfg client
        some { s with
          tasks := s.tasks.set i { t with call := .delivered r.1 }
          requests := s.requests ++ r.2 }
      | _, _ => none
  | .selectTimeout i =>
    match s.tasks[i]? with
    | none => none
    | some t =>
      if t.idx.isSome && t.outcome.isNone then
        match t.batch with
        | [] =>
          some { s with
            tasks := s.tasks.set i { t with outcome := some .timedOut }
            crashed := some "index out of range [0] with length 0" }
        | b0 :: _ =>
          some { s with
            tasks := s.tasks.set i { t with outcome := some .timedOut }
            stdout := s.stdout ++ ["[!] timeout for batch starting " ++ b0] }
      else none
  | .selectErr i =>
    match s.tasks[i]? with
    | none => none
    | some t =>
      match t.call with
      | .delivered (.error err) =>
        if t.outcome.isNone then
          some { s with
            tasks := s.tasks.set i { t with outcome := some (.error err) }
            stdout := s.stdout ++ ["[!] error: " ++ err] }
        else none
      | _ => none
  | .selectResp i =>
    match s.tasks[i]? with
    | none => none
    | some t =>
      match t.call with
      | .delivered (.ok res) =>
        if t.outcome.isNone then
          some { s with
            tasks := s.tasks.set i { t with outcome := some (.success res) }
            outFile := s.outFile.map (fun written => written ++ res)
            stdout := s.stdout ++ ["[+] Generated " ++ toString res.length ++ " entries"] }
        else none
      | _ => none
  | .release i =>
    match s.tasks[i]? with
    | none => none
    | some t =>
      if t.outcome.isSome && !t.released && 0 < s.sem then
        some { s with sem := s.sem - 1, tasks := s.tasks.set i { t with released := true } }
      else none

/-- An execution: the steps of `es` taken in order from `s`; `none` when one cannot be taken. -/
def run (c : Cfg) (s : State) (es : List Event) : Option State :=
  es.foldl (fun cur e => cur.bind (fun st => step c st e)) (some s)

/-- Number of tasks that have been started and have not reached a terminal outcome. -/
def inFlight (s : State) : Nat :=
  s.tasks.countP (fun t => t.outcome.isNone)

/-- The tasks that took their `idx` from the counter, in the order in which they did. -/
def assignOrder (es : List Event) : List Nat :=
  es.filterMap (fun e => match e with | .assign i => some i | _ => none)

/-- The reading of the input file, lines 209-216: the trimmed non-blank lines. -/
def readEntries (lines : List String) : List String :=
  lines.foldl
    (fun entries l => let line := TrimSpace l; if line ≠ "" then entries ++ [line] else entries)
    []

/-- The state in which `main` enters the loop of line 258, from the entries read, the `-b` flag
and whether `-o` was given: `make` panics on a negative `-t`, then `batch` runs. -/
def mainInit (fuel : Nat) (c : Cfg) (entries : List String) (batchSize : Int) (output : Bool) :
    Run State :=
  if c.concurrency < 0 then .panicked "makechan: size out of range"
  else
    match batch fuel entries batchSize with
    | .done batches => .done (initState batches output)
    | .panicked msg => .panicked msg
    | .outOfFuel => .outOfFuel

/-- The terminal outcome of task `i`, if it exists and has one. -/
def taskOutcome (s : State) (i : Nat) : Option Outcome :=
  s.tasks[i]?.bind (fun t => t.outcome)

/-- The lines a task contributes to the output file according to its outcome: those of its
result on success, none otherwise. -/
def linesWritten (s : State) (i : Nat) : List String :=
  match taskOutcome s i with
  | some (.success lines) => lines
  | _ => []

/-- The bookkeeping of the semaphore: the tokens in `sem` are the tasks that have not run their
deferred receive, they never exceed the capacity, and a task that released its token has a
terminal outcome. -/
def SemInv (c : Cfg) (s : State) : Prop :=
  s.sem = s.tasks.countP (fun t => !t.released) ∧
  (s.sem : Int) ≤ c.concurrency ∧
  ∀ t ∈ s.tasks, t.released = true → t.outcome.isSome = true

/-- The output file holds the results of the tasks that succeeded, each once and whole, in the
order `order` in which they succeeded, and nothing else. -/
def SinkInv (output : Bool) (s : State) : Prop :=
  ∃ order : List Nat, order.Nodup ∧
    (∀ i, i ∈ order ↔ ∃ lines, taskOutcome s i = some (.success lines)) ∧
    s.outFile = if output then some (order.flatMap (linesWritten s)) else none

/-- With concurrency limit 1 the tasks run one after the other: every task but the newest has
released its token, a task that has an outcome or whose backend call was started has its
`idx`, and the tasks holding an `idx` are the first `m` in creation order, task `i` holding
`i mod 2 ^ 32`, where `m mod 2 ^ 32` is the counter. -/
def SeqInv (s : State) : Prop :=
  (∀ i t, s.tasks[i]? = some t → i + 1 < s.tasks.length → t.released = true) ∧
  (∀ t ∈ s.tasks, t.outcome.isSome = true → t.idx.isSome = true) ∧
  (∀ t ∈ s.tasks, t.call ≠ .notStarted → t.idx.isSome = true) ∧
  ∃ m, m ≤ s.tasks.length ∧ s.counter = m % 2 ^ 32 ∧
    (∀ i t, s.tasks[i]? = some t → (t.idx.isSome = true ↔ i < m)) ∧
    (∀ i t k, s.tasks[i]? = some t → t.idx = some k → k = i % 2 ^ 32 ∧ t.api = k % 3)

/-! ## Concrete inputs for the examples -/

/-- A config with the Gemini and Groq credentials and without the OpenRouter one, the default
prompt, concurrency limit 2. -/
def exampleCfg : Cfg := ⟨⟨"k1", "", "k3"⟩, defaultPrompt, 2, Sprintf⟩

/-- A transport that answers every request with status 200 and bodies that decode to one
candidate or choice of text. -/
def exampleClient : Client :=
  ⟨fun _ => .ok ⟨200, "200 OK", ""⟩, fun _ => .ok [["x\n\n y "]], fun _ => .ok ["z\n"]⟩

/-- A state with one task whose backend call is under way. -/
def exampleWaiting : State :=
  ⟨[], 1, 2, [⟨["a"], some 1, 1, "p a", .running, none, false⟩], some [], [], [], none⟩

/-- A config without any credential. -/
def noKeysCfg : Cfg := ⟨⟨"", "", ""⟩, defaultPrompt, 2, Sprintf⟩

/-- The example config with concurrency limit 1. -/
def sequentialCfg : Cfg := ⟨⟨"k1", "", "k3"⟩, defaultPrompt, 1, Sprintf⟩

/-! # Theorems -/

/-! ## `batch` -/

theorem batchLoop_exit (size : Int) (fuel : Nat) (slice : List String)
    (batches : List (List String)) (h : ¬ size < (slice.length : Int)) :
    batchLoop size fuel slice batches = .done (batches ++ [slice]) := by
  unfold batchLoop
  simp [h]

theorem batchLoop_iter (size : Int) (fuel : Nat) (slice : List String)
    (batches : List (List String)) (h : size < (slice.length : Int)) (h0 : ¬ size < 0) :
    batchLoop size (fuel + 1) slice batches
      = batchLoop size fuel (slice.drop size.toNat) (batches ++ [slice.take size.toNat]) := by
  rw [batchLoop]
  simp [h, h0]

/-- For a positive size and fuel at least the length of the slice, the loop ends and appends
to `batches` a list `bs` of chunks: they concatenate to the slice, all but the last have length
`size`, the last has length at most `size` and is non-empty unless the slice is empty. -/
theorem batchLoop_spec (size : Int) (hs : 0 < size) :
    ∀ (n : Nat) (slice : List String), slice.length ≤ n →
      ∃ bs : List (List String),
        (∀ fuel batches, slice.length ≤ fuel →
            batchLoop size fuel slice batches = .done (batches ++ bs)) ∧
        bs.flatten = slice ∧
        (∀ b ∈ bs.dropLast, (b.length : Int) = size) ∧
        (∃ last, bs.getLast? = some last ∧ (last.length : Int) ≤ size ∧
            (slice ≠ [] → 1 ≤ last.length)) ∧
        (slice = [] → bs = [[]]) := by
  intro n
  induction n with
  | zero =>
    intro slice hn
    have hnil : slice = [] := List.length_eq_zero.mp (Nat.le_zero.mp hn)
    subst hnil
    refine ⟨[[]], ?_, by simp, by simp, ⟨[], by simp, by simpa using hs.le, by simp⟩, by simp⟩
    intro fuel batches _
    exact batchLoop_exit size fuel [] batches (by simpa using hs.le)
  | succ n ih =>
    intro slice hn
    by_cases h : size < (slice.length : Int)
    · have h0 : ¬ size < 0 := not_lt.mpr hs.le
      have hk : 0 < size.toNat := by omega
      have hkl : size.toNat < slice.length := by omega
      have hdrop : (slice.drop size.toNat).length ≤ n := by
        rw [List.length_drop]; omega
      obtain ⟨bs, hrun, hflat, hfull, ⟨last, hlast, hle, hge⟩, _⟩ :=
        ih (slice.drop size.toNat) hdrop
      have hne : bs ≠ [] := by
        intro hb; subst hb; simp at hlast
      refine ⟨slice.take size.toNat :: bs, ?_, ?_, ?_, ⟨last, ?_, hle, ?_⟩, ?_⟩
      · intro fuel batches hf
        obtain ⟨fuel, rfl⟩ : ∃ f, fuel = f + 1 := ⟨fuel - 1, by omega⟩
        rw [batchLoop_iter size fuel slice batches h h0,
          hrun fuel _ (by rw [List.length_drop]; omega)]
        simp
      · simp [hflat]
      · intro b hb
        rw [List.dropLast_cons_of_ne_nil hne] at hb
        rcases List.mem_cons.mp hb with rfl | hb
        · rw [List.length_take]; omega
        · exact hfull b hb
      · cases bs with
        | nil => exact absurd rfl hne
        | cons b bs => simpa [List.getLast?_cons_cons] using hlast
      · intro _
        apply hge
        intro hd
        have := congrArg List.length hd
        rw [List.length_drop] at this
        simp at this
        omega
      · intro hsl; subst hsl; simp at hkl
    · refine ⟨[slice], ?_, by simp, by simp, ⟨slice, by simp, by omega, ?_⟩, ?_⟩
      · intro fuel batches _
        exact batchLoop_exit size fuel slice batches h
      · intro hsl
        cases slice with
        | nil => exact absurd rfl hsl
        | cons a t => simp
      · intro hsl; subst hsl; rfl

/-- With size 0 and a non-empty slice the loop never ends: it runs out of any fuel. -/
theorem batchLoop_zero_diverges (a : String) (t : List String) :
    ∀ (fuel : Nat) (batches : List (List String)),
      batchLoop 0 fuel (a :: t) batches = .outOfFuel := by
  intro fuel
  induction fuel with
  | zero => intro batches; rw [batchLoop]; simp
  | succ n ih =>
    intro batches
    rw [batchLoop_iter 0 n (a :: t) batches (by simp) (by simp)]
    simpa using ih _

/-- C1: for a positive batch size, `batch` returns (with fuel at least the number of entries)
and the concatenation of its batches, in order, is the entry list itself. -/
theorem batch_concat (entries : List String) (size : Int) (hsize : 0 < size) :
    ∃ bs : List (List String),
      (∀ fuel, entries.length ≤ fuel → batch fuel entries size = .done bs) ∧
      bs.flatten = entries := by
  obtain ⟨bs, hrun, hflat, _⟩ := batchLoop_spec size hsize entries.length entries le_rfl
  exact ⟨bs, fun fuel hf => by simpa [batch] using hrun fuel [] hf, hflat⟩

theorem batch_concat_witness :
    (0 : Int) < 2 ∧ ∃ bs : List (List String),
      (∀ fuel, ["a", "b", "c"].length ≤ fuel → batch fuel ["a", "b", "c"] 2 = .done bs) ∧
      bs.flatten = ["a", "b", "c"] :=
  ⟨by decide, batch_concat ["a", "b", "c"] 2 (by decide)⟩

/-- C2: for a positive batch size, `batch` returns batches of which every one but the last has
length exactly `size`; for a non-empty entry list the last batch has length between 1 and
`size`; for the empty entry list the result is the single empty batch; and the entries
a, b, c, d, e with size 2 give the batches [a, b], [c, d], [e]. -/
theorem batch_shape (entries : List String) (size : Int) (hsize : 0 < size) :
    ∃ bs : List (List String),
      (∀ fuel, entries.length ≤ fuel → batch fuel entries size = .done bs) ∧
      (∀ b ∈ bs.dropLast, (b.length : Int) = size) ∧
      (entries ≠ [] →
        ∃ last, bs.getLast? = some last ∧ 1 ≤ last.length ∧ (last.length : Int) ≤ size) ∧
      (entries = [] → bs = [[]]) ∧
      batch 5 ["a", "b", "c", "d", "e"] 2 = .done [["a", "b"], ["c", "d"], ["e"]] := by
  obtain ⟨bs, hrun, _, hfull, ⟨last, hlast, hle, hge⟩, hnil⟩ :=
    batchLoop_spec size hsize entries.length entries le_rfl
  exact ⟨bs, fun fuel hf => by simpa [batch] using hrun fuel [] hf, hfull,
    fun hne => ⟨last, hlast, hge hne, hle⟩, hnil, by decide⟩

theorem batch_shape_witness :
    (0 : Int) < 2 ∧
    ∃ bs : List (List String),
      (∀ fuel, ["a", "b", "c", "d", "e"].length ≤ fuel →
        batch fuel ["a", "b", "c", "d", "e"] 2 = .done bs) ∧
      (∀ b ∈ bs.dropLast, (b.length : Int) = 2) ∧
      (["a", "b", "c", "d", "e"] ≠ [] →
        ∃ last, bs.getLast? = some last ∧ 1 ≤ last.length ∧ (last.length : Int) ≤ 2) ∧
      (["a", "b", "c", "d", "e"] = [] → bs = [[]]) ∧
      batch 5 ["a", "b", "c", "d", "e"] 2 = .done [["a", "b"], ["c", "d"], ["e"]] :=
  ⟨by decide, batch_shape ["a", "b", "c", "d", "e"] 2 (by decide)⟩

/-- C6, as stated, fails at size 0: on the empty entry list `batch` returns the single empty
batch instead of aborting, and on a non-empty entry list its loop never ends. -/
theorem batch_zero_size_no_abort :
    (∀ fuel, batch fuel [] 0 = .done [[]]) ∧ (∀ fuel, batch fuel ["a"] 0 = .outOfFuel) := by
  constructor
  · intro fuel
    simpa [batch] using batchLoop_exit 0 fuel [] [] (by simp)
  · intro fuel
    exact batchLoop_zero_diverges "a" [] fuel []

/-- C6, amended: for every entry list and every negative batch size, `batch` aborts in its first
iteration with the runtime panic of an out-of-range slice expression; it neither loops nor
returns batches. -/
theorem batch_negative_size_panics (entries : List String) (size : Int) (hsize : size < 0)
    (fuel : Nat) :
    batch (fuel + 1) entries size = .panicked "slice bounds out of range" := by
  have hlt : size < (entries.length : Int) := by omega
  rw [batch, batchLoop]
  simp [hlt, hsize]

theorem batch_negative_size_panics_witness :
    (-1 : Int) < 0 ∧ batch 1 ["a"] (-1) = .panicked "slice bounds out of range" :=
  ⟨by decide, batch_negative_size_panics ["a"] (-1) (by decide) 0⟩

/-! ## `filterEmpty` -/

theorem TrimSpace_eq_empty_iff (s : String) :
    TrimSpace s = "" ↔ ∀ c ∈ s.data, isSpace c = true := by
  unfold TrimSpace
  constructor
  · intro h
    have h1 : List.rdropWhile isSpace (s.data.dropWhile isSpace) = [] := by
      simpa using congrArg String.data h
    by_cases hd : s.data.dropWhile isSpace = []
    · exact List.dropWhile_eq_nil_iff.mp hd
    · exfalso
      have h2 := List.rdropWhile_eq_nil_iff.mp h1
      have h3 := List.head_dropWhile_not isSpace s.data hd
      have h4 := h2 _ (List.head_mem hd)
      simp [h4] at h3
  · intro h
    rw [List.dropWhile_eq_nil_iff.mpr h]
    rfl

theorem TrimSpace_head (s : String) (c : Char) (h : (TrimSpace s).data.head? = some c) :
    isSpace c = false := by
  unfold TrimSpace at h
  simp only at h
  have hne : List.rdropWhile isSpace (s.data.dropWhile isSpace) ≠ [] := by
    intro h0; rw [h0] at h; simp at h
  have hd : s.data.dropWhile isSpace ≠ [] := by
    intro h0; rw [h0] at hne; simp at hne
  have hp := List.IsPrefix.head
    ( List.rdropWhile_prefix (p := isSpace) (l := s.data.dropWhile isSpace)) hne
  have h3 := List.head_dropWhile_not isSpace s.data hd
  rw [List.head?_eq_head hne] at h
  have : c = (s.data.dropWhile isSpace).head hd := by
    rw [← hp]; exact (Option.some.inj h).symm
  rw [this]; exact h3

theorem TrimSpace_last (s : String) (c : Char) (h : (TrimSpace s).data.getLast? = some c) :
    isSpace c = false := by
  unfold TrimSpace at h
  simp only at h
  have hne : List.rdropWhile isSpace (s.data.dropWhile isSpace) ≠ [] := by
    intro h0; rw [h0] at h; simp at h
  have h3 := List.rdropWhile_last_not (p := isSpace) (l := s.data.dropWhile isSpace) hne
  rw [List.getLast?_eq_getLast _ hne] at h
  have : c = _ := (Option.some.inj h).symm
  rw [this]; simpa using h3

theorem filterEmpty_foldl (input acc : List String) :
    input.foldl (fun out v => let s := TrimSpace v; if s ≠ "" then out ++ [s] else out) acc
      = acc ++ (input.filter (fun v => !(v.data.all isSpace))).map TrimSpace := by
  induction input generalizing acc with
  | nil => simp
  | cons v t ih =>
    rw [List.foldl_cons, ih]
    by_cases hv : TrimSpace v = ""
    · have := (TrimSpace_eq_empty_iff v).mp hv
      have hall : v.data.all isSpace = true := by simpa using this
      simp [hv, hall]
    · have hall : v.data.all isSpace = false := by
        by_contra hc
        have hc2 : v.data.all isSpace = true := by simpa using hc
        exact hv ((TrimSpace_eq_empty_iff v).mpr (by simpa using hc2))
      simp [hv, hall]

/-- C8: `filterEmpty` returns, in their original order, the trimmed forms of exactly the lines
that are not made of white space only (the empty line included); every line it returns is
non-empty and neither starts nor ends with a white space character. -/
theorem filterEmpty_trims_and_keeps (input : List String) :
    filterEmpty input = (input.filter (fun v => !(v.data.all isSpace))).map TrimSpace ∧
    ∀ s ∈ filterEmpty input, s ≠ "" ∧
      (∀ c, s.data.head? = some c → isSpace c = false) ∧
      (∀ c, s.data.getLast? = some c → isSpace c = false) := by
  have heq : filterEmpty input
      = (input.filter (fun v => !(v.data.all isSpace))).map TrimSpace := by
    unfold filterEmpty
    simpa using filterEmpty_foldl input []
  refine ⟨heq, ?_⟩
  intro s hs
  rw [heq] at hs
  obtain ⟨v, hv, rfl⟩ := List.mem_map.mp hs
  have hv2 := (List.mem_filter.mp hv).2
  refine ⟨?_, TrimSpace_head v, TrimSpace_last v⟩
  intro he
  have := (TrimSpace_eq_empty_iff v).mp he
  have hall : v.data.all isSpace = true := by simpa using this
  simp [hall] at hv2

/-! ## The dispatch loop -/

theorem run_nil (c : Cfg) (s : State) : run c s [] = some s := rfl

theorem run_snoc (c : Cfg) (s : State) (es : List Event) (e : Event) :
    run c s (es ++ [e]) = (run c s es).bind (fun st => step c st e) := by
  simp [run, List.foldl_append]

/-- Induction along an execution, for a property of the trace and the state reached. -/
theorem run_induction (c : Cfg) (s0 : State) (P : List Event → State → Prop)
    (h0 : P [] s0)
    (hstep : ∀ es s e s2, run c s0 es = some s → P es s → step c s e = some s2 →
      P (es ++ [e]) s2) :
    ∀ es s, run c s0 es = some s → P es s := by
  intro es
  induction es using List.reverseRecOn with
  | nil =>
    intro s h
    rw [run_nil] at h
    cases h
    exact h0
  | append_singleton es e ih =>
    intro s h
    rw [run_snoc] at h
    cases hr : run c s0 es with
    | none => rw [hr] at h; simp at h
    | some s1 =>
      rw [hr] at h
      exact hstep es s1 e s hr (ih s1 hr) (by simpa using h)

theorem countP_set_of_getElem? (p : TaskState → Bool) (l : List TaskState) (i : Nat)
    (t t2 : TaskState) (h : l[i]? = some t) :
    (l.set i t2).countP p + (if p t then 1 else 0) = l.countP p + (if p t2 then 1 else 0) := by
  obtain ⟨hlt, hget⟩ := List.getElem?_eq_some.mp h
  have hset := List.countP_set p l i t2 hlt
  have hle := List.boole_getElem_le_countP p l i hlt
  rw [hget] at hset hle
  omega

theorem SemInv_set (c : Cfg) (s : State) (i : Nat) (t t2 : TaskState)
    (hinv : SemInv c s) (ht : s.tasks[i]? = some t)
    (s2 : State) (hsem : s2.sem = s.sem) (htasks : s2.tasks = s.tasks.set i t2)
    (hrel : t2.released = t.released)
    (hout : t.outcome.isSome = true → t2.outcome.isSome = true) :
    SemInv c s2 := by
  obtain ⟨h1, h2, h3⟩ := hinv
  have htm : t ∈ s.tasks := List.getElem?_mem ht
  refine ⟨?_, by rw [hsem]; exact h2, ?_⟩
  · have := countP_set_of_getElem? (fun t => !t.released) s.tasks i t t2 ht
    simp only [hrel] at this
    rw [hsem, htasks, h1]
    omega
  · intro u hu hur
    rw [htasks] at hu
    rcases List.mem_or_eq_of_mem_set hu with hu | rfl
    · exact h3 u hu hur
    · exact hout (h3 t htm (by rw [← hrel]; exact hur))

theorem step_SemInv (c : Cfg) (s s2 : State) (e : Event) (hinv : SemInv c s)
    (h : step c s e = some s2) : SemInv c s2 := by
  cases e with
  | spawn =>
    simp only [step] at h
    split at h
    · simp at h
    · split at h
      · rename_i hlt
        simp only [Option.some.injEq] at h
        subst h
        obtain ⟨h1, h2, h3⟩ := hinv
        refine ⟨?_, ?_, ?_⟩
        · simp [TaskState.new, h1]
        · simp only; push_cast; omega
        · intro t ht hr
          simp only [List.mem_append, List.mem_singleton] at ht
          rcases ht with ht | rfl
          · exact h3 t ht hr
          · simp [TaskState.new] at hr
      · simp at h
  | assign i =>
    simp only [step] at h
    split at h
    · simp at h
    · rename_i t ht
      split at h
      · simp at h
      · split at h
        · simp at h
        · simp only [Option.some.injEq] at h
          subst h
          exact SemInv_set c s i t _ hinv ht _ rfl rfl rfl (fun x => x)
  | apiReturn i client =>
    simp only [step] at h
    split at h
    · simp at h
    · rename_i t ht
      split at h
      · simp only [Option.some.injEq] at h
        subst h
        exact SemInv_set c s i t _ hinv ht _ rfl rfl rfl (fun x => x)
      · simp at h
  | selectTimeout i =>
    simp only [step] at h
    split at h
    · simp at h
    · rename_i t ht
      split at h
      · split at h <;>
        · simp only [Option.some.injEq] at h
          subst h
          exact SemInv_set c s i t _ hinv ht _ rfl rfl rfl (fun _ => rfl)
      · simp at h
  | selectErr i =>
    simp only [step] at h
    split at h
    · simp at h
    · rename_i t ht
      split at h
      · split at h
        · simp only [Option.some.injEq] at h
          subst h
          exact SemInv_set c s i t _ hinv ht _ rfl rfl rfl (fun _ => rfl)
        · simp at h
      · simp at h
  | selectResp i =>
    simp only [step] at h
    split at h
    · simp at h
    · rename_i t ht
      split at h
      · split at h
        · simp only [Option.some.injEq] at h
          subst h
          exact SemInv_set c s i t _ hinv ht _ rfl rfl rfl (fun _ => rfl)
        · simp at h
      · simp at h
  | release i =>
    simp only [step] at h
    split at h
    · simp at h
    · rename_i t ht
      split at h
      · rename_i hc
        simp only [Bool.and_eq_true, Bool.not_eq_true', decide_eq_true_eq] at hc
        obtain ⟨⟨ho, hr⟩, hpos⟩ := hc
        simp only [Option.some.injEq] at h
        subst h
        obtain ⟨h1, h2, h3⟩ := hinv
        have hcnt := countP_set_of_getElem? (fun t => !t.released) s.tasks i t
          { t with released := true } ht
        simp only [hr] at hcnt
        refine ⟨?_, ?_, ?_⟩
        · simp only
          simp at hcnt
          omega
        · simp only; omega
        · intro u hu hur
          rcases List.mem_or_eq_of_mem_set hu with hu | rfl
          · exact h3 u hu hur
          · exact ho
      · simp at h

theorem inFlight_le_sem (c : Cfg) (s : State) (hinv : SemInv c s) : inFlight s ≤ s.sem := by
  obtain ⟨h1, _, h3⟩ := hinv
  rw [h1, inFlight]
  apply List.countP_mono_left
  intro t ht hn
  cases hr : t.released with
  | false => rfl
  | true =>
    have := h3 t ht hr
    rw [Option.isNone_iff_eq_none] at hn
    rw [hn] at this
    simp at this

/-- C4: for a positive concurrency limit, in every state the dispatch loop can reach (under any
interleaving of its goroutines), the number of tasks that have been started and have not
reached a terminal outcome is at most the limit. -/
theorem inFlight_le_concurrency (c : Cfg) (hpos : 0 < c.concurrency)
    (batches : List (List String)) (output : Bool) (es : List Event) (s : State)
    (hrun : run c (initState batches output) es = some s) :
    (inFlight s : Int) ≤ c.concurrency := by
  have hinv : SemInv c s := by
    refine run_induction c (initState batches output) (fun _ st => SemInv c st) ?_ ?_ es s hrun
    · refine ⟨by simp [initState], by simp [initState]; omega, by simp [initState]⟩
    · intro _ st e st2 _ hst hstep
      exact step_SemInv c st st2 e hst hstep
  have := inFlight_le_sem c s hinv
  have h2 := hinv.2.1
  omega

theorem getElem?_set_some (l : List TaskState) (i0 i : Nat) (t0 t2 t : TaskState)
    (h0 : l[i0]? = some t0) (h : l[i]? = some t) :
    (l.set i0 t2)[i]? = some (if i0 = i then t2 else t) := by
  rw [List.getElem?_set]
  by_cases hi : i0 = i
  · have hlt : i0 < l.length := by
      by_contra hge
      rw [List.getElem?_eq_none (by omega)] at h0
      simp at h0
    rw [if_pos hi, if_pos hlt, if_pos hi]
  · rw [if_neg hi, if_neg hi, h]

/-- A step leaves the `idx` and `api` of a task that has taken its `idx` as they are. -/
theorem step_idx_stable (c : Cfg) (s s2 : State) (e : Event) (h : step c s e = some s2)
    (i k : Nat) (t : TaskState) (ht : s.tasks[i]? = some t) (hk : t.idx = some k) :
    ∃ t2, s2.tasks[i]? = some t2 ∧ t2.idx = some k ∧ t2.api = t.api := by
  cases e with
  | spawn =>
    simp only [step] at h
    split at h
    · simp at h
    · split at h
      · simp only [Option.some.injEq] at h
        subst h
        refine ⟨t, ?_, hk, rfl⟩
        have hlt : i < s.tasks.length := by
          by_contra hge
          rw [List.getElem?_eq_none (by omega)] at ht
          simp at ht
        simp only
        rw [List.getElem?_append_left hlt]
        exact ht
      · simp at h
  | assign i0 =>
    simp only [step] at h
    split at h
    · simp at h
    · rename_i t0 ht0
      split at h
      · simp at h
      · rename_i hidx
        split at h
        · simp at h
        · simp only [Option.some.injEq] at h
          subst h
          have hne : i0 ≠ i := by
            rintro rfl
            rw [ht] at ht0
            cases ht0
            simp [hk] at hidx
          exact ⟨t, by simp only; rw [List.getElem?_set_ne hne]; exact ht, hk, rfl⟩
  | apiReturn i0 client =>
    simp only [step] at h
    split at h
    · simp at h
    · rename_i t0 ht0
      split at h
      · simp only [Option.some.injEq] at h
        subst h
        simp only
        rw [getElem?_set_some s.tasks i0 i t0 _ t ht0 ht]
        by_cases hi : i0 = i
        · subst hi
          rw [ht] at ht0; cases ht0
          exact ⟨_, rfl, by simp [hk], by simp⟩
        · exact ⟨_, rfl, by simp [hi, hk], by simp [hi]⟩
      · simp at h
  | selectTimeout i0 =>
    simp only [step] at h
    split at h
    · simp at h
    · rename_i t0 ht0
      split at h
      · split at h <;>
        · simp only [Option.some.injEq] at h
          subst h
          simp only
          rw [getElem?_set_some s.tasks i0 i t0 _ t ht0 ht]
          by_cases hi : i0 = i
          · subst hi
            rw [ht] at ht0; cases ht0
            exact ⟨_, rfl, by simp [hk], by simp⟩
          · exact ⟨_, rfl, by simp [hi, hk], by simp [hi]⟩
      · simp at h
  | selectErr i0 =>
    simp only [step] at h
    split at h
    · simp at h
    · rename_i t0 ht0
      split at h
      · split at h
        · simp only [Option.some.injEq] at h
          subst h
          simp only
          rw [getElem?_set_some s.tasks i0 i t0 _ t ht0 ht]
          by_cases hi : i0 = i
          · subst hi
            rw [ht] at ht0; cases ht0
            exact ⟨_, rfl, by simp [hk], by simp⟩
          · exact ⟨_, rfl, by simp [hi, hk], by simp [hi]⟩
        · simp at h
      · simp at h
  | selectResp i0 =>
    simp only [step] at h
    split at h
    · simp at h
    · rename_i t0 ht0
      split at h
      · split at h
        · simp only [Option.some.injEq] at h
          subst h
          simp only
          rw [getElem?_set_some s.tasks i0 i t0 _ t ht0 ht]
          by_cases hi : i0 = i
          · subst hi
            rw [ht] at ht0; cases ht0
            exact ⟨_, rfl, by simp [hk], by simp⟩
          · exact ⟨_, rfl, by simp [hi, hk], by simp [hi]⟩
        · simp at h
      · simp at h
  | release i0 =>
    simp only [step] at h
    split at h
    · simp at h
    · rename_i t0 ht0
      split at h
      · simp only [Option.some.injEq] at h
        subst h
        simp only
        rw [getElem?_set_some s.tasks i0 i t0 _ t ht0 ht]
        by_cases hi : i0 = i
        · subst hi
          rw [ht] at ht0; cases ht0
          exact ⟨_, rfl, by simp [hk], by simp⟩
        · exact ⟨_, rfl, by simp [hi, hk], by simp [hi]⟩
      · simp at h

/-- The step `assign i` hands the current counter value to task `i` and advances the counter
modulo `2 ^ 32`. -/
theorem step_assign (c : Cfg) (s s2 : State) (i : Nat) (h : step c s (.assign i) = some s2) :
    s2.counter = (s.counter + 1) % 2 ^ 32 ∧
    ∃ t2, s2.tasks[i]? = some t2 ∧ t2.idx = some s.counter ∧ t2.api = s.counter % 3 := by
  simp only [step] at h
  split at h
  · simp at h
  · rename_i t ht
    split at h
    · simp at h
    · split at h
      · simp at h
      · simp only [Option.some.injEq] at h
        subst h
        refine ⟨rfl, ?_⟩
        simp only
        rw [getElem?_set_some s.tasks i i t _ t ht ht]
        exact ⟨_, rfl, by simp, by simp [apis]⟩

/-- Only `assign` touches the counter. -/
theorem step_counter (c : Cfg) (s s2 : State) (e : Event) (h : step c s e = some s2)
    (he : ∀ i, e ≠ .assign i) : s2.counter = s.counter := by
  cases e with
  | assign i => exact absurd rfl (he i)
  | spawn =>
    simp only [step] at h
    split at h
    · simp at h
    · split at h
      · simp only [Option.some.injEq] at h
        subst h; rfl
      · simp at h
  | apiReturn i0 client =>
    simp only [step] at h
    split at h
    · simp at h
    · split at h
      · simp only [Option.some.injEq] at h
        subst h; rfl
      · simp at h
  | selectTimeout i0 =>
    simp only [step] at h
    split at h
    · simp at h
    · split at h
      · split at h <;>
        · simp only [Option.some.injEq] at h
          subst h; rfl
      · simp at h
  | selectErr i0 =>
    simp only [step] at h
    split at h
    · simp at h
    · split at h
      · split at h
        · simp only [Option.some.injEq] at h
          subst h; rfl
        · simp at h
      · simp at h
  | selectResp i0 =>
    simp only [step] at h
    split at h
    · simp at h
    · split at h
      · split at h
        · simp only [Option.some.injEq] at h
          subst h; rfl
        · simp at h
      · simp at h
  | release i0 =>
    simp only [step] at h
    split at h
    · simp at h
    · split at h
      · simp only [Option.some.injEq] at h
        subst h; rfl
      · simp at h

theorem assignOrder_snoc (es : List Event) (e : Event) :
    assignOrder (es ++ [e]) =
      assignOrder es ++ (match e with | .assign i => [i] | _ => []) := by
  unfold assignOrder
  rw [List.filterMap_append]
  cases e <;> simp

/-- The counter is the number of increments so far modulo `2 ^ 32`, and the `j`-th task to
increment holds `idx = j mod 2 ^ 32` and the backend index `idx mod 3`. -/
theorem assign_invariant (c : Cfg) (s0 : State) (h0 : s0.counter = 0) :
    ∀ es s, run c s0 es = some s →
      s.counter = (assignOrder es).length % 2 ^ 32 ∧
      ∀ j i, (assignOrder es)[j]? = some i →
        ∃ t, s.tasks[i]? = some t ∧ t.idx = some (j % 2 ^ 32) ∧ t.api = (j % 2 ^ 32) % 3 := by
  refine run_induction c s0 _ ?_ ?_
  · exact ⟨by simp [assignOrder, h0], by simp [assignOrder]⟩
  · intro es s e s2 _ hP hstep
    obtain ⟨hcnt, htasks⟩ := hP
    by_cases he : ∃ i, e = .assign i
    · obtain ⟨i, rfl⟩ := he
      obtain ⟨hc2, t2, ht2, hidx2, hapi2⟩ := step_assign c s s2 i hstep
      rw [assignOrder_snoc]
      refine ⟨?_, ?_⟩
      · rw [hc2, hcnt]
        simp
      · intro j i2 hj
        by_cases hlt : j < (assignOrder es).length
        · rw [List.getElem?_append_left hlt] at hj
          obtain ⟨t, ht, hidx, hapi⟩ := htasks j i2 hj
          obtain ⟨t3, ht3, hidx3, hapi3⟩ := step_idx_stable c s s2 _ hstep i2 _ t ht hidx
          exact ⟨t3, ht3, hidx3, by rw [hapi3, hapi]⟩
        · rw [List.getElem?_append_right (by omega)] at hj
          have hj0 : j - (assignOrder es).length = 0 := by
            by_contra hne
            rw [List.getElem?_eq_none (by simp; omega)] at hj
            simp at hj
          rw [hj0] at hj
          simp at hj
          subst hj
          have hjeq : j = (assignOrder es).length := by omega
          subst hjeq
          exact ⟨t2, ht2, by rw [hidx2, hcnt], by rw [hapi2, hcnt]⟩
    · have he2 : ∀ i, e ≠ .assign i := fun i hi => he ⟨i, hi⟩
      have hao : assignOrder (es ++ [e]) = assignOrder es := by
        rw [assignOrder_snoc]
        cases e <;> simp
        exact absurd rfl (he2 _)
      rw [hao]
      refine ⟨by rw [step_counter c s s2 e hstep he2, hcnt], ?_⟩
      intro j i hj
      obtain ⟨t, ht, hidx, hapi⟩ := htasks j i hj
      obtain ⟨t3, ht3, hidx3, hapi3⟩ := step_idx_stable c s s2 _ hstep i _ t ht hidx
      exact ⟨t3, ht3, hidx3, by rw [hapi3, hapi]⟩

theorem taskOutcome_set (s s2 : State) (i0 : Nat) (t0 t2 : TaskState)
    (h0 : s.tasks[i0]? = some t0) (h2 : s2.tasks = s.tasks.set i0 t2) (i : Nat) :
    taskOutcome s2 i = if i0 = i then t2.outcome else taskOutcome s i := by
  unfold taskOutcome
  rw [h2, List.getElem?_set]
  have hlt : i0 < s.tasks.length := by
    by_contra hge
    rw [List.getElem?_eq_none (by omega)] at h0
    simp at h0
  by_cases hi : i0 = i
  · rw [if_pos hi, if_pos hlt, if_pos hi]; rfl
  · rw [if_neg hi, if_neg hi]

theorem taskOutcome_set_same (s s2 : State) (i0 : Nat) (t0 t2 : TaskState)
    (h0 : s.tasks[i0]? = some t0) (h2 : s2.tasks = s.tasks.set i0 t2)
    (ho : t2.outcome = t0.outcome) (i : Nat) :
    taskOutcome s2 i = taskOutcome s i := by
  rw [taskOutcome_set s s2 i0 t0 t2 h0 h2 i]
  by_cases hi : i0 = i
  · rw [if_pos hi, ho, ← hi]
    simp [taskOutcome, h0]
  · rw [if_neg hi]

/-- How a step acts on the outcomes and on the output file. Either it is the success case of
a `select`: the task had no outcome, its outcome becomes `success res` for the result `res`
its backend call delivered, `res` is appended to the output file, and no other outcome
changes. Or it is another step: the output file is unchanged, the error case and the timeout
case of a `select` give the task, which had no outcome, the outcome `error` or `timedOut`, and
no other outcome changes. -/
theorem step_outcome (c : Cfg) (s s2 : State) (e : Event) (h : step c s e = some s2) :
    (∃ i0 t res, e = .selectResp i0 ∧ s.tasks[i0]? = some t ∧ t.outcome = none ∧
      t.call = .delivered (.ok res) ∧
      taskOutcome s2 i0 = some (.success res) ∧
      s2.outFile = s.outFile.map (fun written => written ++ res) ∧
      ∀ i, i ≠ i0 → taskOutcome s2 i = taskOutcome s i) ∨
    ((∀ i0, e ≠ .selectResp i0) ∧ s2.outFile = s.outFile ∧
      (∀ i, e ≠ .selectErr i → e ≠ .selectTimeout i → taskOutcome s2 i = taskOutcome s i) ∧
      (∀ i, e = .selectErr i → taskOutcome s i = none ∧
        ∃ t err, s.tasks[i]? = some t ∧ t.call = .delivered (.error err) ∧
          taskOutcome s2 i = some (.error err)) ∧
      (∀ i, e = .selectTimeout i →
        taskOutcome s i = none ∧ taskOutcome s2 i = some .timedOut)) := by
  cases e with
  | spawn =>
    right
    simp only [step] at h
    split at h
    · simp at h
    · split at h
      · simp only [Option.some.injEq] at h
        subst h
        refine ⟨by simp, rfl, fun i _ _ => ?_, by simp, by simp⟩
        unfold taskOutcome
        simp only
        by_cases hlt : i < s.tasks.length
        · rw [List.getElem?_append_left hlt]
        · rw [List.getElem?_append_right (by omega),
            List.getElem?_eq_none (l := s.tasks) (by omega)]
          by_cases hz : i - s.tasks.length = 0
          · rw [hz]; simp [TaskState.new]
          · rw [List.getElem?_eq_none (by simp; omega)]
      · simp at h
  | assign i0 =>
    right
    simp only [step] at h
    split at h
    · simp at h
    · rename_i t0 ht0
      split at h
      · simp at h
      · split at h
        · simp at h
        · simp only [Option.some.injEq] at h
          subst h
          refine ⟨by simp, rfl, fun i _ _ => ?_, by simp, by simp⟩
          exact taskOutcome_set_same s _ i0 t0 _ ht0 rfl (by rfl) i
  | apiReturn i0 client =>
    right
    simp only [step] at h
    split at h
    · simp at h
    · rename_i t0 ht0
      split at h
      · simp only [Option.some.injEq] at h
        subst h
        refine ⟨by simp, rfl, fun i _ _ => ?_, by simp, by simp⟩
        exact taskOutcome_set_same s _ i0 t0 _ ht0 rfl (by rfl) i
      · simp at h
  | selectTimeout i0 =>
    right
    simp only [step] at h
    split at h
    · simp at h
    · rename_i t0 ht0
      split at h
      · rename_i hc
        simp only [Bool.and_eq_true, Option.isNone_iff_eq_none] at hc
        split at h <;>
        · simp only [Option.some.injEq] at h
          subst h
          refine ⟨by simp, rfl, fun i _ hne => ?_, by simp, fun i hi => ?_⟩
          · rw [taskOutcome_set s _ i0 t0 _ ht0 rfl i]
            by_cases hi : i0 = i
            · exact absurd (by rw [hi]) hne
            · rw [if_neg hi]
          · cases hi
            refine ⟨by simp [taskOutcome, ht0, hc.2], ?_⟩
            rw [taskOutcome_set s _ i0 t0 _ ht0 rfl i0]
            simp
      · simp at h
  | selectErr i0 =>
    right
    simp only [step] at h
    split at h
    · simp at h
    · rename_i t0 ht0
      split at h
      · rename_i err hcall
        split at h
        · rename_i hc
          simp only [Option.isNone_iff_eq_none] at hc
          simp only [Option.some.injEq] at h
          subst h
          refine ⟨by simp, rfl, fun i hne _ => ?_, fun i hi => ?_, by simp⟩
          · rw [taskOutcome_set s _ i0 t0 _ ht0 rfl i]
            by_cases hi : i0 = i
            · exact absurd (by rw [hi]) hne
            · rw [if_neg hi]
          · cases hi
            refine ⟨by simp [taskOutcome, ht0, hc], t0, err, ht0, hcall, ?_⟩
            rw [taskOutcome_set s _ i0 t0 _ ht0 rfl i0]
            simp
        · simp at h
      · simp at h
  | selectResp i0 =>
    left
    simp only [step] at h
    split at h
    · simp at h
    · rename_i t0 ht0
      split at h
      · rename_i res hcall
        split at h
        · rename_i hc
          simp only [Option.isNone_iff_eq_none] at hc
          simp only [Option.some.injEq] at h
          subst h
          refine ⟨i0, t0, res, rfl, ht0, hc, hcall, ?_, rfl, fun i hi => ?_⟩
          · rw [taskOutcome_set s _ i0 t0 _ ht0 rfl i0]; simp
          · rw [taskOutcome_set s _ i0 t0 _ ht0 rfl i, if_neg (Ne.symm hi)]
        · simp at h
      · simp at h
  | release i0 =>
    right
    simp only [step] at h
    split at h
    · simp at h
    · rename_i t0 ht0
      split at h
      · simp only [Option.some.injEq] at h
        subst h
        refine ⟨by simp, rfl, fun i _ _ => ?_, by simp, by simp⟩
        exact taskOutcome_set_same s _ i0 t0 _ ht0 rfl (by rfl) i
      · simp at h

/-- A step that is not the success case of a `select` changes an outcome at most from none
to an `error` or to `timedOut`. -/
theorem step_outcome_other (c : Cfg) (s s2 : State) (e : Event) (h : step c s e = some s2)
    (he : ∀ i0, e ≠ .selectResp i0) (i : Nat) :
    taskOutcome s2 i = taskOutcome s i ∨
      (taskOutcome s i = none ∧
        ((∃ err, taskOutcome s2 i = some (.error err)) ∨ taskOutcome s2 i = some .timedOut)) := by
  rcases step_outcome c s s2 e h with ⟨i0, _, _, hi0, _⟩ | ⟨_, _, hsame, herr, htime⟩
  · exact absurd hi0 (he i0)
  · by_cases h1 : e = .selectErr i
    · obtain ⟨hn, _, err, _, _, h2⟩ := herr i h1
      exact Or.inr ⟨hn, Or.inl ⟨err, h2⟩⟩
    · by_cases h2 : e = .selectTimeout i
      · obtain ⟨hn, h3⟩ := htime i h2
        exact Or.inr ⟨hn, Or.inr h3⟩
      · exact Or.inl (hsame i h1 h2)

/-- An outcome, once set, is final. -/
theorem step_outcome_final (c : Cfg) (s s2 : State) (e : Event) (h : step c s e = some s2)
    (i : Nat) (o : Outcome) (ho : taskOutcome s i = some o) : taskOutcome s2 i = some o := by
  rcases step_outcome c s s2 e h with ⟨i0, t, res, _, ht, hnone, _, _, _, hrest⟩ | ⟨he, _⟩
  · by_cases hi : i = i0
    · subst hi
      simp [taskOutcome, ht, hnone] at ho
    · rw [hrest i hi]; exact ho
  · rcases step_outcome_other c s s2 e h he i with heq | ⟨hn, _⟩
    · rw [heq]; exact ho
    · rw [hn] at ho; cases ho

theorem step_SinkInv (c : Cfg) (output : Bool) (s s2 : State) (e : Event)
    (hinv : SinkInv output s) (h : step c s e = some s2) : SinkInv output s2 := by
  obtain ⟨order, hnd, hmem, hout⟩ := hinv
  rcases step_outcome c s s2 e h with
    ⟨i0, t, res, _, ht, hnone, _, hsucc, hfile, hrest⟩ | ⟨he, hfile, _⟩
  · have hto : taskOutcome s i0 = none := by simp [taskOutcome, ht, hnone]
    have hnot : i0 ∉ order := by
      intro hin
      obtain ⟨lines, hl⟩ := (hmem i0).mp hin
      rw [hto] at hl; cases hl
    have hsame : ∀ i ∈ order, linesWritten s2 i = linesWritten s i := by
      intro i hi
      have hne : i ≠ i0 := fun hh => hnot (hh ▸ hi)
      simp only [linesWritten, hrest i hne]
    refine ⟨order ++ [i0], ?_, ?_, ?_⟩
    · rw [List.nodup_append]
      refine ⟨hnd, by simp, ?_⟩
      intro a ha hb
      simp only [List.mem_singleton] at hb
      exact hnot (hb ▸ ha)
    · intro i
      simp only [List.mem_append, List.mem_singleton]
      constructor
      · rintro (hi | rfl)
        · have hne : i ≠ i0 := fun hh => hnot (hh ▸ hi)
          rw [hrest i hne]
          exact (hmem i).mp hi
        · exact ⟨res, hsucc⟩
      · rintro ⟨lines, hl⟩
        by_cases hi : i = i0
        · exact Or.inr hi
        · rw [hrest i hi] at hl
          exact Or.inl ((hmem i).mpr ⟨lines, hl⟩)
    · rw [hfile, hout]
      have hflat : (order ++ [i0]).flatMap (linesWritten s2)
          = order.flatMap (linesWritten s) ++ res := by
        rw [List.flatMap_append]
        congr 1
        · exact List.flatMap_congr hsame
        · simp [linesWritten, hsucc]
      rw [hflat]
      cases output <;> simp
  · have hrest := step_outcome_other c s s2 e h he
    have hsame : ∀ i, linesWritten s2 i = linesWritten s i := by
      intro i
      rcases hrest i with heq | ⟨hn, ⟨err, he⟩ | he⟩
      · simp only [linesWritten, heq]
      · simp only [linesWritten, hn, he]
      · simp only [linesWritten, hn, he]
    refine ⟨order, hnd, ?_, ?_⟩
    · intro i
      rw [hmem i]
      rcases hrest i with heq | ⟨hn, ⟨err, he⟩ | he⟩
      · rw [heq]
      · simp [hn, he]
      · simp [hn, he]
    · rw [hfile, hout]
      have : order.flatMap (linesWritten s2) = order.flatMap (linesWritten s) :=
        List.flatMap_congr (fun i _ => hsame i)
      rw [this]

/-- C5: in every state the dispatch loop can reach, the output file holds exactly the result
lines of the tasks whose outcome is Success, each result once, whole and in order (nothing when
no output file is configured); and for every step taken from there: an outcome already reached
is final, the success case of a `select` appends exactly the lines its backend call delivered,
the error and the timeout case leave the file unchanged, and so does every other step, the
late arrival of a backend result after a timeout among them. -/
theorem sink_matches_outcomes (c : Cfg) (batches : List (List String)) (output : Bool)
    (es : List Event) (s : State) (hrun : run c (initState batches output) es = some s) :
    (∃ order : List Nat, order.Nodup ∧
      (∀ i, i ∈ order ↔ ∃ lines, taskOutcome s i = some (.success lines)) ∧
      s.outFile = if output then some (order.flatMap (linesWritten s)) else none) ∧
    ∀ e s2, step c s e = some s2 →
      (∀ i o, taskOutcome s i = some o → taskOutcome s2 i = some o) ∧
      (∀ i, e = .selectResp i → ∃ t res, s.tasks[i]? = some t ∧ t.outcome = none ∧
        t.call = .delivered (.ok res) ∧ taskOutcome s2 i = some (.success res) ∧
        s2.outFile = s.outFile.map (fun written => written ++ res)) ∧
      (∀ i, e = .selectErr i → taskOutcome s i = none ∧
        (∃ err, taskOutcome s2 i = some (.error err)) ∧ s2.outFile = s.outFile) ∧
      (∀ i, e = .selectTimeout i → taskOutcome s i = none ∧
        taskOutcome s2 i = some .timedOut ∧ s2.outFile = s.outFile) ∧
      ((∀ i, e ≠ .selectResp i) → s2.outFile = s.outFile) := by
  constructor
  · refine run_induction c (initState batches output) (fun _ st => SinkInv output st)
      ?_ ?_ es s hrun
    · refine ⟨[], List.nodup_nil, ?_, ?_⟩
      · intro i
        simp [taskOutcome, initState]
      · cases output <;> simp [initState]
    · intro _ st e st2 _ hst hstep
      exact step_SinkInv c output st st2 e hst hstep
  · intro e s2 hstep
    refine ⟨fun i o ho => step_outcome_final c s s2 e hstep i o ho, ?_, ?_, ?_, ?_⟩
    · intro i hi
      rcases step_outcome c s s2 e hstep with
        ⟨i0, t, res, he, ht, hnone, hcall, hsucc, hfile, _⟩ | ⟨he, _⟩
      · rw [hi] at he
        cases he
        exact ⟨t, res, ht, hnone, hcall, hsucc, hfile⟩
      · exact absurd hi (he i)
    · intro i hi
      rcases step_outcome c s s2 e hstep with ⟨i0, _, _, he, _⟩ | ⟨_, hfile, _, herr, _⟩
      · rw [hi] at he; cases he
      · obtain ⟨hn, _, err, _, _, h2⟩ := herr i hi
        exact ⟨hn, ⟨err, h2⟩, hfile⟩
    · intro i hi
      rcases step_outcome c s s2 e hstep with ⟨i0, _, _, he, _⟩ | ⟨_, hfile, _, _, htime⟩
      · rw [hi] at he; cases he
      · obtain ⟨hn, h2⟩ := htime i hi
        exact ⟨hn, h2, hfile⟩
    · intro hne
      rcases step_outcome c s s2 e hstep with ⟨i0, _, _, he, _⟩ | ⟨_, hfile, _⟩
      · exact absurd he (hne i0)
      · exact hfile

theorem map_batch_set (l : List TaskState) (i : Nat) (t t2 : TaskState)
    (h : l[i]? = some t) (hb : t2.batch = t.batch) :
    (l.set i t2).map (fun u => u.batch) = l.map (fun u => u.batch) := by
  induction l generalizing i with
  | nil => simp
  | cons x l ih =>
    cases i with
    | zero =>
      simp at h
      subst h
      simp [hb]
    | succ i =>
      simp at h
      simp [ih i h]

/-- The tasks are created for the batches in order: the batches of the tasks so far followed
by the batches still pending are the batches the loop ranges over. -/
theorem step_batches (c : Cfg) (s s2 : State) (e : Event) (h : step c s e = some s2) :
    s2.tasks.map (fun u => u.batch) ++ s2.pending
      = s.tasks.map (fun u => u.batch) ++ s.pending := by
  cases e with
  | spawn =>
    simp only [step] at h
    split at h
    · simp at h
    · rename_i b rest hp
      split at h
      · simp only [Option.some.injEq] at h
        subst h
        simp [hp, TaskState.new]
      · simp at h
  | assign i0 =>
    simp only [step] at h
    split at h
    · simp at h
    · rename_i t0 ht0
      split at h
      · simp at h
      · split at h
        · simp at h
        · simp only [Option.some.injEq] at h
          subst h
          simp only
          rw [map_batch_set s.tasks i0 t0 _ ht0 (by rfl)]
  | apiReturn i0 client =>
    simp only [step] at h
    split at h
    · simp at h
    · rename_i t0 ht0
      split at h
      · simp only [Option.some.injEq] at h
        subst h
        simp only
        rw [map_batch_set s.tasks i0 t0 _ ht0 (by rfl)]
      · simp at h
  | selectTimeout i0 =>
    simp only [step] at h
    split at h
    · simp at h
    · rename_i t0 ht0
      split at h
      · split at h <;>
        · simp only [Option.some.injEq] at h
          subst h
          simp only
          rw [map_batch_set s.tasks i0 t0 _ ht0 (by rfl)]
      · simp at h
  | selectErr i0 =>
    simp only [step] at h
    split at h
    · simp at h
    · rename_i t0 ht0
      split at h
      · split at h
        · simp only [Option.some.injEq] at h
          subst h
          simp only
          rw [map_batch_set s.tasks i0 t0 _ ht0 (by rfl)]
        · simp at h
      · simp at h
  | selectResp i0 =>
    simp only [step] at h
    split at h
    · simp at h
    · rename_i t0 ht0
      split at h
      · split at h
        · simp only [Option.some.injEq] at h
          subst h
          simp only
          rw [map_batch_set s.tasks i0 t0 _ ht0 (by rfl)]
        · simp at h
      · simp at h
  | release i0 =>
    simp only [step] at h
    split at h
    · simp at h
    · rename_i t0 ht0
      split at h
      · simp only [Option.some.injEq] at h
        subst h
        simp only
        rw [map_batch_set s.tasks i0 t0 _ ht0 (by rfl)]
      · simp at h

theorem run_batches (c : Cfg) (batches : List (List String)) (output : Bool) :
    ∀ es s, run c (initState batches output) es = some s →
      s.tasks.map (fun u => u.batch) ++ s.pending = batches := by
  refine run_induction c (initState batches output) (fun _ st =>
    st.tasks.map (fun u => u.batch) ++ st.pending = batches) ?_ ?_
  · simp [initState]
  · intro _ st e st2 _ hst hstep
    rw [step_batches c st st2 e hstep]
    exact hst

/-- The task at position `i` is the one created for the `i`-th batch. -/
theorem task_batch (c : Cfg) (batches : List (List String)) (output : Bool)
    (es : List Event) (s : State) (hrun : run c (initState batches output) es = some s)
    (i : Nat) (t : TaskState) (ht : s.tasks[i]? = some t) : batches[i]? = some t.batch := by
  have hb := run_batches c batches output es s hrun
  have hlt : i < s.tasks.length := by
    by_contra hge
    rw [List.getElem?_eq_none (by omega)] at ht
    simp at ht
  rw [← hb, List.getElem?_append_left (by simpa using hlt), List.getElem?_map, ht]
  rfl

/-- The shape of a step: a `spawn` appends a fresh task; every other step replaces one task
`t0` by `t2`, where `assign` gives it the counter value as `idx` and advances the counter, and
the other steps leave `idx`, `api` and the counter alone, never undo a release, never start a
backend call, and set an outcome only for a task that has its `idx` or a started call. -/
theorem step_shape (c : Cfg) (s s2 : State) (e : Event) (h : step c s e = some s2) :
    (e = .spawn ∧ (s.sem : Int) < c.concurrency ∧ s2.counter = s.counter ∧
      ∃ b, s2.tasks = s.tasks ++ [TaskState.new b]) ∨
    (∃ i0 t0 t2, s.tasks[i0]? = some t0 ∧ s2.tasks = s.tasks.set i0 t2 ∧
      ((e = .assign i0 ∧ t0.idx = none ∧ t2.idx = some s.counter ∧
          t2.api = s.counter % 3 ∧ s2.counter = (s.counter + 1) % 2 ^ 32 ∧
          t2.released = t0.released ∧ t2.outcome = t0.outcome) ∨
        (t2.idx = t0.idx ∧ t2.api = t0.api ∧ s2.counter = s.counter ∧
          (t0.released = true → t2.released = true) ∧
          (t0.call = .notStarted → t2.call = .notStarted) ∧
          (t2.outcome.isSome = true →
            t0.outcome.isSome = true ∨ t0.idx.isSome = true ∨ t0.call ≠ .notStarted)))) := by
  cases e with
  | spawn =>
    left
    simp only [step] at h
    split at h
    · simp at h
    · rename_i b rest hp
      split at h
      · rename_i hlt
        simp only [Option.some.injEq] at h
        subst h
        exact ⟨rfl, hlt, rfl, b, rfl⟩
      · simp at h
  | assign i0 =>
    right
    simp only [step] at h
    split at h
    · simp at h
    · rename_i t0 ht0
      split at h
      · simp at h
      · rename_i hidx
        split at h
        · simp at h
        · simp only [Option.some.injEq] at h
          subst h
          refine ⟨i0, t0, _, ht0, rfl, Or.inl ⟨rfl, ?_, rfl, ?_, rfl, rfl, rfl⟩⟩
          · simpa using hidx
          · simp [apis]
  | apiReturn i0 client =>
    right
    simp only [step] at h
    split at h
    · simp at h
    · rename_i t0 ht0
      split at h
      · rename_i api hcall hapi
        simp only [Option.some.injEq] at h
        subst h
        refine ⟨i0, t0, _, ht0, rfl, Or.inr ⟨rfl, rfl, rfl, fun x => x, ?_, fun x => Or.inl x⟩⟩
        intro hn
        rw [hn] at hcall
        cases hcall
      · simp at h
  | selectTimeout i0 =>
    right
    simp only [step] at h
    split at h
    · simp at h
    · rename_i t0 ht0
      split at h
      · rename_i hc
        simp only [Bool.and_eq_true] at hc
        split at h <;>
        · simp only [Option.some.injEq] at h
          subst h
          exact ⟨i0, t0, _, ht0, rfl,
            Or.inr ⟨rfl, rfl, rfl, fun x => x, fun x => x, fun _ => Or.inr (Or.inl hc.1)⟩⟩
      · simp at h
  | selectErr i0 =>
    right
    simp only [step] at h
    split at h
    · simp at h
    · rename_i t0 ht0
      split at h
      · rename_i err hcall
        split at h
        · simp only [Option.some.injEq] at h
          subst h
          refine ⟨i0, t0, _, ht0, rfl,
            Or.inr ⟨rfl, rfl, rfl, fun x => x, fun x => x, fun _ => Or.inr (Or.inr ?_)⟩⟩
          rw [hcall]
          intro hn
          cases hn
        · simp at h
      · simp at h
  | selectResp i0 =>
    right
    simp only [step] at h
    split at h
    · simp at h
    · rename_i t0 ht0
      split at h
      · rename_i res hcall
        split at h
        · simp only [Option.some.injEq] at h
          subst h
          refine ⟨i0, t0, _, ht0, rfl,
            Or.inr ⟨rfl, rfl, rfl, fun x => x, fun x => x, fun _ => Or.inr (Or.inr ?_)⟩⟩
          rw [hcall]
          intro hn
          cases hn
        · simp at h
      · simp at h
  | release i0 =>
    right
    simp only [step] at h
    split at h
    · simp at h
    · rename_i t0 ht0
      split at h
      · simp only [Option.some.injEq] at h
        subst h
        exact ⟨i0, t0, _, ht0, rfl,
          Or.inr ⟨rfl, rfl, rfl, fun _ => rfl, fun x => x, fun x => Or.inl x⟩⟩
      · simp at h

theorem getElem?_set_cases (l : List TaskState) (i0 i : Nat) (t2 t : TaskState)
    (h : (l.set i0 t2)[i]? = some t) : (i = i0 ∧ t = t2) ∨ (i ≠ i0 ∧ l[i]? = some t) := by
  rw [List.getElem?_set] at h
  by_cases hi : i0 = i
  · rw [if_pos hi] at h
    split at h
    · exact Or.inl ⟨hi.symm, (Option.some.inj h).symm⟩
    · cases h
  · rw [if_neg hi] at h
    exact Or.inr ⟨fun hh => hi hh.symm, h⟩

theorem getElem?_lt_length (l : List TaskState) (i : Nat) (t : TaskState)
    (h : l[i]? = some t) : i < l.length := by
  by_contra hge
  rw [List.getElem?_eq_none (by omega)] at h
  cases h

theorem step_SeqInv (c : Cfg) (hc : c.concurrency = 1) (s s2 : State) (e : Event)
    (hsem : SemInv c s) (hinv : SeqInv s) (h : step c s e = some s2) : SeqInv s2 := by
  obtain ⟨hA, hB2, hB1, m, hm, hcnt, hpre, hpat⟩ := hinv
  obtain ⟨hs1, _, hs3⟩ := hsem
  rcases step_shape c s s2 e h with ⟨_, hlt, hcs, b, htasks⟩ | ⟨i0, t0, t2, ht0, htasks, hcase⟩
  · -- spawn: the semaphore was empty, so every task had released its token
    rw [hc] at hlt
    have hzero : s.tasks.countP (fun t => !t.released) = 0 := by omega
    have hall : ∀ t ∈ s.tasks, t.released = true := by
      intro t ht
      have := List.countP_eq_zero.mp hzero t ht
      simpa using this
    have hlook : ∀ i t, s2.tasks[i]? = some t →
        (i < s.tasks.length ∧ s.tasks[i]? = some t) ∨
          (i = s.tasks.length ∧ t = TaskState.new b) := by
      intro i t hit
      rw [htasks] at hit
      by_cases hi : i < s.tasks.length
      · rw [List.getElem?_append_left hi] at hit
        exact Or.inl ⟨hi, hit⟩
      · rw [List.getElem?_append_right (by omega)] at hit
        have hz : i - s.tasks.length = 0 := by
          by_contra hne
          rw [List.getElem?_eq_none (by simp; omega)] at hit
          cases hit
        rw [hz] at hit
        simp at hit
        exact Or.inr ⟨by omega, hit.symm⟩
    have hmem : ∀ t ∈ s2.tasks, t ∈ s.tasks ∨ t = TaskState.new b := by
      intro t ht
      rw [htasks] at ht
      simpa using ht
    refine ⟨?_, ?_, ?_, m, ?_, by rw [hcs]; exact hcnt, ?_, ?_⟩
    · intro i t hit _
      rcases hlook i t hit with ⟨_, hold⟩ | ⟨hi, _⟩
      · exact hall t (List.getElem?_mem hold)
      · have hlen : s2.tasks.length = s.tasks.length + 1 := by rw [htasks]; simp
        omega
    · intro t ht ho
      rcases hmem t ht with hold | rfl
      · exact hB2 t hold ho
      · simp [TaskState.new] at ho
    · intro t ht hcall
      rcases hmem t ht with hold | rfl
      · exact hB1 t hold hcall
      · exact absurd rfl hcall
    · rw [htasks]; simp; omega
    · intro i t hit
      rcases hlook i t hit with ⟨_, hold⟩ | ⟨hi, rfl⟩
      · exact hpre i t hold
      · simp [TaskState.new]; omega
    · intro i t k hit hk
      rcases hlook i t hit with ⟨_, hold⟩ | ⟨_, rfl⟩
      · exact hpat i t k hold hk
      · simp [TaskState.new] at hk
  · have hlen : s2.tasks.length = s.tasks.length := by rw [htasks]; simp
    have hi0 : i0 < s.tasks.length := getElem?_lt_length s.tasks i0 t0 ht0
    have hlook : ∀ i t, s2.tasks[i]? = some t →
        (i = i0 ∧ t = t2) ∨ (i ≠ i0 ∧ s.tasks[i]? = some t) := by
      intro i t hit
      rw [htasks] at hit
      exact getElem?_set_cases s.tasks i0 i t2 t hit
    have hmem : ∀ t ∈ s2.tasks, t ∈ s.tasks ∨ t = t2 := by
      intro t ht
      rw [htasks] at ht
      exact List.mem_or_eq_of_mem_set ht
    have ht0m : t0 ∈ s.tasks := List.getElem?_mem ht0
    rcases hcase with ⟨_, hnone, hidx2, hapi2, hcs, hrel, hout⟩ |
      ⟨hidx, hapi, hcs, hrel, hcall, hout⟩
    · -- assign: the task is the first without `idx`, at position `m`
      have hge : m ≤ i0 := by
        by_contra hlt
        have := (hpre i0 t0 ht0).mpr (by omega)
        rw [hnone] at this
        cases this
      have hle : i0 ≤ m := by
        by_contra hlt
        have hmlt : m < s.tasks.length := by omega
        obtain ⟨tm, htm⟩ : ∃ tm, s.tasks[m]? = some tm :=
          ⟨s.tasks[m], List.getElem?_eq_getElem hmlt⟩
        have hr := hA m tm htm (by omega)
        have ho := hs3 tm (List.getElem?_mem htm) hr
        have hi := hB2 tm (List.getElem?_mem htm) ho
        have := (hpre m tm htm).mp hi
        omega
      have hmeq : i0 = m := by omega
      refine ⟨?_, ?_, ?_, m + 1, by omega, ?_, ?_, ?_⟩
      · intro i t hit hi
        rcases hlook i t hit with ⟨rfl, rfl⟩ | ⟨_, hold⟩
        · rw [hrel]; exact hA i t0 ht0 (by omega)
        · exact hA i t hold (by omega)
      · intro t ht ho
        rcases hmem t ht with hold | rfl
        · exact hB2 t hold ho
        · rw [hidx2]; rfl
      · intro t ht hcall
        rcases hmem t ht with hold | rfl
        · exact hB1 t hold hcall
        · rw [hidx2]; rfl
      · rw [hcs, hcnt]; simp
      · intro i t hit
        rcases hlook i t hit with ⟨rfl, rfl⟩ | ⟨hne, hold⟩
        · rw [hidx2]; simp; omega
        · rw [hpre i t hold]; omega
      · intro i t k hit hk
        rcases hlook i t hit with ⟨rfl, rfl⟩ | ⟨_, hold⟩
        · rw [hidx2] at hk
          cases hk
          exact ⟨by rw [hcnt, hmeq], hapi2⟩
        · exact hpat i t k hold hk
    · refine ⟨?_, ?_, ?_, m, by omega, by rw [hcs]; exact hcnt, ?_, ?_⟩
      · intro i t hit hi
        rcases hlook i t hit with ⟨rfl, rfl⟩ | ⟨_, hold⟩
        · exact hrel (hA i t0 ht0 (by omega))
        · exact hA i t hold (by omega)
      · intro t ht ho
        rcases hmem t ht with hold | rfl
        · exact hB2 t hold ho
        · rw [hidx]
          rcases hout ho with h1 | h1 | h1
          · exact hB2 t0 ht0m h1
          · exact h1
          · exact hB1 t0 ht0m h1
      · intro t ht hc2
        rcases hmem t ht with hold | rfl
        · exact hB1 t hold hc2
        · rw [hidx]
          exact hB1 t0 ht0m (fun hn => hc2 (hcall hn))
      · intro i t hit
        rcases hlook i t hit with ⟨rfl, rfl⟩ | ⟨_, hold⟩
        · rw [hidx]; exact hpre i t0 ht0
        · exact hpre i t hold
      · intro i t k hit hk
        rcases hlook i t hit with ⟨rfl, rfl⟩ | ⟨_, hold⟩
        · rw [hidx] at hk
          rw [hapi]
          exact hpat i t0 k ht0 hk
        · exact hpat i t k hold hk

/-- With concurrency limit 1, in every reachable state the task created for the `i`-th batch,
once it has taken its `idx`, holds `i mod 2 ^ 32` and the backend index `idx mod 3`. -/
theorem sequential_order (c : Cfg) (hc : c.concurrency = 1) (batches : List (List String))
    (output : Bool) (es : List Event) (s : State)
    (hrun : run c (initState batches output) es = some s)
    (i k : Nat) (t : TaskState) (ht : s.tasks[i]? = some t) (hk : t.idx = some k) :
    k = i % 2 ^ 32 ∧ t.api = (i % 2 ^ 32) % 3 := by
  have hinv : SemInv c s ∧ SeqInv s := by
    refine run_induction c (initState batches output) (fun _ st => SemInv c st ∧ SeqInv st)
      ?_ ?_ es s hrun
    · refine ⟨⟨by simp [initState], by simp [initState, hc], by simp [initState]⟩, ?_⟩
      refine ⟨by simp [initState], by simp [initState], by simp [initState], 0, ?_⟩
      simp [initState]
    · intro _ st e st2 _ hst hstep
      exact ⟨step_SemInv c st st2 e hst.1 hstep, step_SeqInv c hc st st2 e hst.1 hst.2 hstep⟩
  obtain ⟨_, _, _, _, m, _, _, _, hpat⟩ := hinv
  obtain ⟨h1, h2⟩ := hpat i t k ht hk
  exact ⟨h1, by rw [h2, h1]⟩

/-- C3, as stated, fails: with concurrency limit 2 and two batches, the interleaving in which
the task of batch 1 takes its `idx` before the task of batch 0 gives the task created for
batch 0 (`["a"]`) the backend index 1, not 0 mod 3, and the task of batch 1 the index 0. -/
theorem backend_not_by_creation_order :
    (run exampleCfg (initState [["a"], ["b"]] true) [.spawn, .spawn, .assign 1, .assign 0]).map
      (fun s => s.tasks.map (fun t => (t.batch, t.idx, t.api)))
      = some [(["a"], some 1, 1), (["b"], some 0, 0)] := by
  decide

/-- C3, amended: in every execution of the dispatch loop, the task that is the `j`-th (from 0)
to run its atomic increment of the counter holds `idx = j mod 2 ^ 32` and is assigned the
backend index `idx mod 3`, whichever batch it was created for (the task at position `i` is
the one created for the `i`-th batch); with concurrency limit 1 the increments follow the
order of creation, so the task of the `i`-th batch holds `i mod 2 ^ 32`; with a larger limit
the order of the increments is that of the scheduler and need not be the order of creation. -/
theorem backend_by_increment_order (c : Cfg) (batches : List (List String)) (output : Bool)
    (es : List Event) (s : State) (hrun : run c (initState batches output) es = some s) :
    (∀ j i, (assignOrder es)[j]? = some i →
      ∃ t, s.tasks[i]? = some t ∧ batches[i]? = some t.batch ∧
        t.idx = some (j % 2 ^ 32) ∧ t.api = (j % 2 ^ 32) % 3) ∧
    (c.concurrency = 1 → ∀ i t k, s.tasks[i]? = some t → t.idx = some k →
      batches[i]? = some t.batch ∧ k = i % 2 ^ 32 ∧ t.api = (i % 2 ^ 32) % 3) := by
  constructor
  · intro j i hj
    obtain ⟨t, ht, hidx, hapi⟩ :=
      (assign_invariant c (initState batches output) rfl es s hrun).2 j i hj
    exact ⟨t, ht, task_batch c batches output es s hrun i t ht, hidx, hapi⟩
  · intro hc i t k ht hk
    exact ⟨task_batch c batches output es s hrun i t ht,
      sequential_order c hc batches output es s hrun i k t ht hk⟩

theorem run_interleaved_example :
    (run exampleCfg (initState [["a"], ["b"]] true)
      [.spawn, .spawn, .assign 1, .assign 0]).isSome = true := by
  decide

theorem run_sequential_example :
    (run sequentialCfg (initState [["a"], ["b"]] true) [.spawn, .assign 0]).isSome = true := by
  decide

theorem backend_by_increment_order_witness :
    (∃ s, run exampleCfg (initState [["a"], ["b"]] true)
        [.spawn, .spawn, .assign 1, .assign 0] = some s ∧
      ∀ j i, (assignOrder [.spawn, .spawn, .assign 1, .assign 0])[j]? = some i →
        ∃ t, s.tasks[i]? = some t ∧ [["a"], ["b"]][i]? = some t.batch ∧
          t.idx = some (j % 2 ^ 32) ∧ t.api = (j % 2 ^ 32) % 3) ∧
    (sequentialCfg.concurrency = 1 ∧
      ∃ s, run sequentialCfg (initState [["a"], ["b"]] true) [.spawn, .assign 0] = some s ∧
        ∀ i t k, s.tasks[i]? = some t → t.idx = some k →
          [["a"], ["b"]][i]? = some t.batch ∧ k = i % 2 ^ 32 ∧ t.api = (i % 2 ^ 32) % 3) := by
  obtain ⟨s1, hs1⟩ := Option.isSome_iff_exists.mp run_interleaved_example
  obtain ⟨s2, hs2⟩ := Option.isSome_iff_exists.mp run_sequential_example
  exact ⟨⟨s1, hs1, (backend_by_increment_order exampleCfg [["a"], ["b"]] true _ s1 hs1).1⟩,
    rfl, s2, hs2, (backend_by_increment_order sequentialCfg [["a"], ["b"]] true _ s2 hs2).2 rfl⟩

theorem inFlight_le_concurrency_witness :
    (0 : Int) < exampleCfg.concurrency ∧
    ∃ s, run exampleCfg (initState [["a"], ["b"], ["c"]] true) [.spawn, .spawn] = some s ∧
      inFlight s = 2 ∧ (inFlight s : Int) ≤ exampleCfg.concurrency :=
  ⟨by decide, _, rfl, rfl,
    inFlight_le_concurrency exampleCfg (by decide) [["a"], ["b"], ["c"]] true
      [.spawn, .spawn] _ rfl⟩

theorem sink_matches_outcomes_witness :
    ∃ s, run exampleCfg (initState [["a"], ["b"]] true)
        [.spawn, .spawn, .assign 0, .assign 1, .apiReturn 0 exampleClient, .selectResp 0,
          .selectTimeout 1, .apiReturn 1 exampleClient] = some s ∧
      s.outFile = some ["x", "y"] ∧
      ∃ order : List Nat, order.Nodup ∧
        (∀ i, i ∈ order ↔ ∃ lines, taskOutcome s i = some (.success lines)) ∧
        s.outFile = if true then some (order.flatMap (linesWritten s)) else none :=
  ⟨_, rfl, rfl,
    (sink_matches_outcomes exampleCfg [["a"], ["b"]] true
      [.spawn, .spawn, .assign 0, .assign 1, .apiReturn 0 exampleClient, .selectResp 0,
        .selectTimeout 1, .apiReturn 1 exampleClient] _ rfl).1⟩

/-! ## Missing credentials -/

/-- C9: each adapter whose own credential is the empty string returns its missing-key error
and no lines without handing any request to the transport, whatever the other two credentials
are; and in the dispatch loop, for a task whose backend call is under way on such an adapter,
the call returns, the error case of the `select` can run, and it makes the error the outcome of
that task while the crash flag, the pending batches, the semaphore, the output file, the
requests sent and every other task stay as they were. -/
theorem missing_credential (c : Cfg) (text : String) (client : Client) :
    (c.cfg.GeminiAPIKey = "" →
      geminiRequest text c.cfg client = (.error "missing Gemini API key", [])) ∧
    (c.cfg.OpenRouterAPIKey = "" →
      deepseekRequest text c.cfg client = (.error "missing OpenRouter API key", [])) ∧
    (c.cfg.GroqAPIKey = "" →
      groqRequest text c.cfg client = (.error "missing Groq API key", [])) ∧
    ∀ (s : State) (i : Nat) (t : TaskState), s.tasks[i]? = some t → t.call = .running →
      t.outcome = none →
      ((t.api = 0 ∧ c.cfg.GeminiAPIKey = "") ∨ (t.api = 1 ∧ c.cfg.OpenRouterAPIKey = "") ∨
        (t.api = 2 ∧ c.cfg.GroqAPIKey = "")) →
      ∃ s1 s2 err, step c s (.apiReturn i client) = some s1 ∧ s1.requests = s.requests ∧
        step c s1 (.selectErr i) = some s2 ∧ taskOutcome s2 i = some (.error err) ∧
        s2.crashed = s.crashed ∧ s2.pending = s.pending ∧ s2.sem = s.sem ∧
        s2.outFile = s.outFile ∧ s2.requests = s.requests ∧
        ∀ j, j ≠ i → s2.tasks[j]? = s.tasks[j]? := by
  have hg : c.cfg.GeminiAPIKey = "" → ∀ txt,
      geminiRequest txt c.cfg client = (.error "missing Gemini API key", []) := by
    intro h txt; simp [geminiRequest, h]
  have hd : c.cfg.OpenRouterAPIKey = "" → ∀ txt,
      deepseekRequest txt c.cfg client = (.error "missing OpenRouter API key", []) := by
    intro h txt; simp [deepseekRequest, h]
  have hq : c.cfg.GroqAPIKey = "" → ∀ txt,
      groqRequest txt c.cfg client = (.error "missing Groq API key", []) := by
    intro h txt; simp [groqRequest, h]
  refine ⟨fun h => hg h text, fun h => hd h text, fun h => hq h text, ?_⟩
  intro s i t ht hcall hout hkey
  have hlt : i < s.tasks.length := by
    by_contra hge
    rw [List.getElem?_eq_none (by omega)] at ht
    simp at ht
  obtain ⟨api, err, hapi, hres⟩ : ∃ api err, apis[t.api]? = some api ∧
      api t.fullPrompt c.cfg client = (.error err, []) := by
    rcases hkey with ⟨hk, he⟩ | ⟨hk, he⟩ | ⟨hk, he⟩
    · exact ⟨geminiRequest, _, by rw [hk]; rfl, hg he _⟩
    · exact ⟨deepseekRequest, _, by rw [hk]; rfl, hd he _⟩
    · exact ⟨groqRequest, _, by rw [hk]; rfl, hq he _⟩
  have h1 : step c s (.apiReturn i client) = some { s with
      tasks := s.tasks.set i { t with call := .delivered (.error err) }
      requests := s.requests ++ [] } := by
    simp only [step, ht, hcall, hapi, hres]
  have h2 : step c { s with
      tasks := s.tasks.set i { t with call := .delivered (.error err) }
      requests := s.requests ++ [] } (.selectErr i) = some { s with
      tasks := (s.tasks.set i { t with call := .delivered (.error err) }).set i
        { t with call := .delivered (.error err), outcome := some (.error err) }
      requests := s.requests ++ []
      stdout := s.stdout ++ ["[!] error: " ++ err] } := by
    simp only [step, List.getElem?_set, if_pos hlt, if_true, hout]
    rfl
  refine ⟨_, _, err, h1, by simp, h2, ?_, rfl, rfl, rfl, rfl, by simp, ?_⟩
  · simp [taskOutcome, List.getElem?_set, hlt]
  · intro j hj
    simp only
    rw [List.getElem?_set_ne (Ne.symm hj), List.getElem?_set_ne (Ne.symm hj)]

theorem missing_credential_witness :
    noKeysCfg.cfg.GeminiAPIKey = "" ∧ noKeysCfg.cfg.OpenRouterAPIKey = "" ∧
    noKeysCfg.cfg.GroqAPIKey = "" ∧
    geminiRequest "p" noKeysCfg.cfg exampleClient = (.error "missing Gemini API key", []) ∧
    deepseekRequest "p" noKeysCfg.cfg exampleClient
      = (.error "missing OpenRouter API key", []) ∧
    groqRequest "p" noKeysCfg.cfg exampleClient = (.error "missing Groq API key", []) ∧
    ∃ s1 s2 err, step noKeysCfg exampleWaiting (.apiReturn 0 exampleClient) = some s1 ∧
      s1.requests = exampleWaiting.requests ∧
      step noKeysCfg s1 (.selectErr 0) = some s2 ∧ taskOutcome s2 0 = some (.error err) ∧
      s2.crashed = exampleWaiting.crashed ∧ s2.pending = exampleWaiting.pending ∧
      s2.sem = exampleWaiting.sem ∧ s2.outFile = exampleWaiting.outFile ∧
      s2.requests = exampleWaiting.requests ∧
      ∀ j, j ≠ 0 → s2.tasks[j]? = exampleWaiting.tasks[j]? :=
  ⟨rfl, rfl, rfl,
    (missing_credential noKeysCfg "p" exampleClient).1 rfl,
    (missing_credential noKeysCfg "p" exampleClient).2.1 rfl,
    (missing_credential noKeysCfg "p" exampleClient).2.2.1 rfl,
    (missing_credential noKeysCfg "p" exampleClient).2.2.2 exampleWaiting 0 _ rfl rfl rfl
      (Or.inr (Or.inl ⟨rfl, rfl⟩))⟩

/-! ## The empty input and the default prompt -/

/-- C7 fails on the code: an input without a non-blank line gives no entries, `batch` turns
them into the single empty batch, and the loop dispatches it like any other: it starts a task
for it, the task builds a prompt without entries and calls the Gemini adapter, which sends a
request; if that task times out, line 285 indexes `batch[0]` of the empty batch and panics. -/
theorem empty_input_is_dispatched :
    readEntries ["", "  "] = [] ∧
    mainInit 0 exampleCfg [] 100 true = .done (initState [[]] true) ∧
    (run exampleCfg (initState [[]] true) [.spawn, .assign 0, .apiReturn 0 exampleClient]).map
      (fun s => (s.tasks.map (fun t => (t.batch, t.api, t.fullPrompt)),
        s.requests.map (fun r => r.text)))
      = some ([([], 0, "Generate related wordlist entries:%!(EXTRA int=0) ")],
          ["Generate related wordlist entries:%!(EXTRA int=0) "]) ∧
    (run exampleCfg (initState [[]] true) [.spawn, .assign 0, .selectTimeout 0]).map
      (fun s => s.crashed) = some (some "index out of range [0] with length 0") := by
  refine ⟨by decide, rfl, by decide, by decide⟩

/-- C10 fails on the code for the default template: it has no placeholder, so `fmt.Sprintf`
reports the batch size as an extra operand and the notice lands in the prompt; the two mode
templates take the batch size as the claim says. -/
theorem default_prompt_gets_extra_operand :
    selectPrompt "" false false = some defaultPrompt ∧
    fullPrompt defaultPrompt ["a", "b"]
      = some "Generate related wordlist entries:%!(EXTRA int=2) a<b" ∧
    fullPrompt defaultPrompt ["a", "b"] ≠ some "Generate related wordlist entries: a<b" ∧
    (selectPrompt "" true false).bind (fun p => fullPrompt p ["a", "b"])
      = some "There are 2 subdomains separated by a < character. Based on the sample subdomains, generate 150 new possible subdomains. Only return the subdomains. Do not number them. a<b" ∧
    (selectPrompt "" false true).bind (fun p => fullPrompt p ["a", "b"])
      = some "There are 2 URLs separated by a < character. Based on the sample URLs and folders, generate 150 new possible directory paths. Only return the directory paths. Do not number them or place any formatting. a<b" := by
  refine ⟨rfl, by decide, by decide, ?_, ?_⟩
  · set_option maxRecDepth 100000 in decide
  · set_option maxRecDepth 100000 in decide

theorem sprintf_domain (n : Int) :
    Sprintf "There are %d subdomains separated by a < character. Based on the sample subdomains, generate 150 new possible subdomains. Only return the subdomains. Do not number them." [n]
      = some ("There are " ++ toString n ++ " subdomains separated by a < character. Based on the sample subdomains, generate 150 new possible subdomains. Only return the subdomains. Do not number them.") := by
  have h : sprintfAux "There are %d subdomains separated by a < character. Based on the sample subdomains, generate 150 new possible subdomains. Only return the subdomains. Do not number them.".data [n]
      = some ("There are ".data ++ (toString n).data ++ " subdomains separated by a < character. Based on the sample subdomains, generate 150 new possible subdomains. Only return the subdomains. Do not number them.".data) := by
    set_option maxRecDepth 100000 in rfl
  rw [Sprintf, h]
  rfl

/-- In subdomain mode the full prompt is the template with the number of entries of the batch
in the place of `%d`, a space, and the entries joined by `<`. -/
theorem domain_prompt (b : List String) :
    (selectPrompt "" true false).bind (fun p => fullPrompt p b)
      = some ("There are " ++ toString (b.length : Int) ++ " subdomains separated by a < character. Based on the sample subdomains, generate 150 new possible subdomains. Only return the subdomains. Do not number them." ++ " " ++ "<".intercalate b) := by
  have h1 : selectPrompt "" true false = some "There are %d subdomains separated by a < character. Based on the sample subdomains, generate 150 new possible subdomains. Only return the subdomains. Do not number them." := by
    set_option maxRecDepth 100000 in decide
  rw [h1]
  simp only [Option.some_bind, fullPrompt, sprintf_domain, Option.map_some', joinPrompt]

theorem sprintf_directory (n : Int) :
    Sprintf "There are %d URLs separated by a < character. Based on the sample URLs and folders, generate 150 new possible directory paths. Only return the directory paths. Do not number them or place any formatting." [n]
      = some ("There are " ++ toString n ++ " URLs separated by a < character. Based on the sample URLs and folders, generate 150 new possible directory paths. Only return the directory paths. Do not number them or place any formatting.") := by
  have h : sprintfAux "There are %d URLs separated by a < character. Based on the sample URLs and folders, generate 150 new possible directory paths. Only return the directory paths. Do not number them or place any formatting.".data [n]
      = some ("There are ".data ++ (toString n).data ++ " URLs separated by a < character. Based on the sample URLs and folders, generate 150 new possible directory paths. Only return the directory paths. Do not number them or place any formatting.".data) := by
    set_option maxRecDepth 100000 in rfl
  rw [Sprintf, h]
  rfl

/-- In directory mode the full prompt is the template with the number of entries of the batch
in the place of `%d`, a space, and the entries joined by `<`. -/
theorem directory_prompt (b : List String) :
    (selectPrompt "" false true).bind (fun p => fullPrompt p b)
      = some ("There are " ++ toString (b.length : Int) ++ " URLs separated by a < character. Based on the sample URLs and folders, generate 150 new possible directory paths. Only return the directory paths. Do not number them or place any formatting." ++ " " ++ "<".intercalate b) := by
  have h1 : selectPrompt "" false true = some "There are %d URLs separated by a < character. Based on the sample URLs and folders, generate 150 new possible directory paths. Only return the directory paths. Do not number them or place any formatting." := by
    set_option maxRecDepth 100000 in decide
  rw [h1]
  simp only [Option.some_bind, fullPrompt, sprintf_directory, Option.map_some', joinPrompt]
